import Mathlib

/-!
# dependabot-automerge: the pull-request workflow of `main.go`

A shallow embedding of `Action.run` and the functions it calls
(`checkPRisOpen`, `verifyDependabot`, `verifyChecks`, `rebase`, `approve`,
`merge`), followed by theorems about the order and number of the remote calls
they make.

The GitHub client is a scripted `Remote`: for each endpoint, the response to the
n-th call of that endpoint.  The arguments of every call are fixed by the event,
so every execution of the Go code against a real server is the execution of the
model against the script of the responses that server gave.  A `Cursor` counts
the calls made so far; every function returns its value, the new cursor and the
effects (log lines, sleeps, remote calls with their error) it produced, in order.
-/

namespace DependabotAutomerge

/-! ## Data model -/

/-- Go `error` values: the ones the remote client returns, and the three that
`main.go` builds itself with `fmt.Errorf`. -/
inductive Error
  /-- an error returned by a go-github call -/
  | remote (msg : String)
  /-- the error "pull request event has no pull request" -/
  | noPullRequest
  /-- the error "not all commits are signed and authored by dependabot[bot]" -/
  | commitsNotVerified
  /-- the error "checks are not passing" -/
  | checksNotPassing
  deriving DecidableEq, Repr

/-- The fields of `github.PullRequest` that `main.go` reads. -/
structure PullRequest where
  number : Int
  userLogin : String
  headSHA : String
  state : String
  deriving DecidableEq, Repr

/-- The fields of `github.PullRequestEvent` that the workflow reads; the pull
request may be nil. -/
structure PullRequestEvent where
  repoOwner : String
  repoName : String
  action : String
  pullRequest : Option PullRequest
  deriving DecidableEq, Repr

/-- One policy entry of `config.yaml` (`type Config`). -/
structure Config where
  repository : String
  autoapprove : Bool
  automerge : Bool
  deriving DecidableEq, Repr

/-- A commit of the pull request: `commit.Commit.GetVerification().GetVerified()`
and `commit.GetAuthor().GetLogin()`. -/
structure RepositoryCommit where
  verified : Bool
  authorLogin : String
  deriving DecidableEq, Repr

/-- A check run: `check.GetStatus()`. -/
structure CheckRun where
  status : String
  deriving DecidableEq, Repr

/-- A review: `review.GetState()`. -/
structure PullRequestReview where
  state : String
  deriving DecidableEq, Repr

/-- The remote calls of the workflow, with the arguments the code passes. -/
inductive Call
  | getPullRequest (owner repo : String) (number : Int)
  | listCommits (owner repo : String) (number : Int)
  | listCheckRunsForRef (owner repo ref : String)
  | listReviews (owner repo : String) (number : Int)
  | createReview (owner repo : String) (number : Int) (event : String)
  | createComment (owner repo : String) (number : Int) (body : String)
  deriving DecidableEq, Repr

/-- What the workflow does to the outside: a log line, a `time.Sleep`, or a
remote call together with the error it returned (`none` for nil). -/
inductive Effect
  | log (msg : String)
  | sleep (seconds : Nat)
  | call (c : Call) (err : Option Error)
  deriving DecidableEq, Repr

/-- The scripted server: the response to the n-th call of each endpoint. -/
structure Remote where
  getPullRequest : Nat → Except Error PullRequest
  listCommits : Nat → Except Error (List RepositoryCommit)
  listCheckRunsForRef : Nat → Except Error (List CheckRun)
  listReviews : Nat → Except Error (List PullRequestReview)
  createReview : Nat → Option Error
  createComment : Nat → Option Error

/-- How many calls of each endpoint have been made. -/
structure Cursor where
  getPullRequest : Nat
  listCommits : Nat
  listCheckRunsForRef : Nat
  listReviews : Nat
  createReview : Nat
  createComment : Nat
  deriving DecidableEq, Repr

/-- The cursor before any call. -/
def Cursor.start : Cursor := ⟨0, 0, 0, 0, 0, 0⟩

/-- The result of running a piece of the workflow: its return value, the cursor
after it and the effects it produced, oldest first. -/
structure Outcome (α : Type) where
  value : α
  cursor : Cursor
  trace : List Effect

/-- A piece of the workflow, run from a cursor. -/
def Act (α : Type) : Type := Cursor → Outcome α

/-- Sequencing: run `m`, then `f` on its value from the cursor it left; the
effects are concatenated. -/
def Act.bind {α β : Type} (m : Act α) (f : α → Act β) : Act β := fun s =>
  let o := m s
  let o' := f o.value o.cursor
  ⟨o'.value, o'.cursor, o.trace ++ o'.trace⟩

instance : Monad Act where
  pure a := fun s => ⟨a, s, []⟩
  bind := Act.bind

/-- Produce one effect. -/
def emit (e : Effect) : Act Unit := fun s => ⟨(), s, [e]⟩

/-! ## The remote calls -/

/-- The call `a.client.PullRequests.Get`. -/
def clientGetPullRequest (remote : Remote) (owner repo : String) (number : Int) :
    Act (Except Error PullRequest) := fun s =>
  let r := remote.getPullRequest s.getPullRequest
  ⟨r, { s with getPullRequest := s.getPullRequest + 1 },
    [.call (.getPullRequest owner repo number) (match r with | .error e => some e | .ok _ => none)]⟩

/-- The call `a.client.PullRequests.ListCommits`. -/
def clientListCommits (remote : Remote) (owner repo : String) (number : Int) :
    Act (Except Error (List RepositoryCommit)) := fun s =>
  let r := remote.listCommits s.listCommits
  ⟨r, { s with listCommits := s.listCommits + 1 },
    [.call (.listCommits owner repo number) (match r with | .error e => some e | .ok _ => none)]⟩

/-- The call `a.client.Checks.ListCheckRunsForRef`. -/
def clientListCheckRunsForRef (remote : Remote) (owner repo ref : String) :
    Act (Except Error (List CheckRun)) := fun s =>
  let r := remote.listCheckRunsForRef s.listCheckRunsForRef
  ⟨r, { s with listCheckRunsForRef := s.listCheckRunsForRef + 1 },
    [.call (.listCheckRunsForRef owner repo ref) (match r with | .error e => some e | .ok _ => none)]⟩

/-- The call `a.client.PullRequests.ListReviews`. -/
def clientListReviews (remote : Remote) (owner repo : String) (number : Int) :
    Act (Except Error (List PullRequestReview)) := fun s =>
  let r := remote.listReviews s.listReviews
  ⟨r, { s with listReviews := s.listReviews + 1 },
    [.call (.listReviews owner repo number) (match r with | .error e => some e | .ok _ => none)]⟩

/-- The call `a.client.PullRequests.CreateReview`. -/
def clientCreateReview (remote : Remote) (owner repo : String) (number : Int) (event : String) :
    Act (Option Error) := fun s =>
  let r := remote.createReview s.createReview
  ⟨r, { s with createReview := s.createReview + 1 },
    [.call (.createReview owner repo number event) r]⟩

/-- The call `a.client.Issues.CreateComment`. -/
def clientCreateComment (remote : Remote) (owner repo : String) (number : Int) (body : String) :
    Act (Option Error) := fun s =>
  let r := remote.createComment s.createComment
  ⟨r, { s with createComment := s.createComment + 1 },
    [.call (.createComment owner repo number body) r]⟩

/-! ## The workflow (`main.go`, lines 139-323) -/

/-- Method `Action.checkPRisOpen` (lines 185-200). -/
def checkPRisOpen (remote : Remote) (event : PullRequestEvent) : Act (Bool × Option Error) :=
  match event.pullRequest with
  | none => pure (false, some .noPullRequest)
  | some pr => do
    let res ← clientGetPullRequest remote event.repoOwner event.repoName pr.number
    match res with
    | .error err => pure (false, some err)
    | .ok live => if live.state != "open" then pure (false, none) else pure (true, none)

/-- The test of the loop in `verifyDependabot` (line 218). -/
def commitRejected (commit : RepositoryCommit) : Bool :=
  !commit.verified || commit.authorLogin != "dependabot[bot]"

/-- Method `Action.verifyDependabot` (lines 202-223). -/
def verifyDependabot (remote : Remote) (event : PullRequestEvent) : Act (Option Error) :=
  match event.pullRequest with
  | none => pure none
  | some pr =>
    if pr.userLogin != "dependabot[bot]" then pure none else do
    let res ← clientListCommits remote event.repoOwner event.repoName pr.number
    match res with
    | .error err => pure (some err)
    | .ok commits => if commits.any commitRejected then pure (some .commitsNotVerified) else pure none

/-- The constant `maxAttempts` of `verifyChecks`. -/
def maxAttempts : Nat := 12

/-- The constant `interval` of `verifyChecks`, in seconds. -/
def interval : Nat := 10

/-- The inner loop of `verifyChecks` (lines 247-253): no check run has a status
other than "completed". -/
def allChecksCompleted (checks : List CheckRun) : Bool :=
  checks.all fun check => check.status == "completed"

/-- The attempt loop of `verifyChecks` (lines 240-261), by the number of
attempts left (`maxAttempts - attempt`); `completed` is the variable
`allChecksCompleted` on entry to the iteration. -/
def verifyChecksLoop (remote : Remote) (owner repo sha : String) :
    Nat → Bool → Act (Bool × Option Error)
  | 0, completed => pure (completed, none)
  | left + 1, _ => do
    let res ← clientListCheckRunsForRef remote owner repo sha
    match res with
    | .error err => pure (false, some err)
    | .ok checks =>
      if allChecksCompleted checks then pure (true, none) else do
      emit (.sleep interval)
      verifyChecksLoop remote owner repo sha left false

/-- Method `Action.verifyChecks` (lines 225-262). -/
def verifyChecks (remote : Remote) (event : PullRequestEvent) : Act (Bool × Option Error) :=
  match event.pullRequest with
  | none => pure (false, some .noPullRequest)
  | some pr => verifyChecksLoop remote event.repoOwner event.repoName pr.headSHA maxAttempts true

/-- Method `Action.rebase` (lines 264-279). -/
def rebase (remote : Remote) (event : PullRequestEvent) : Act (Option Error) :=
  match event.pullRequest with
  | none => pure (some .noPullRequest)
  | some pr =>
    clientCreateComment remote event.repoOwner event.repoName pr.number "@dependabot rebase"

/-- Method `Action.approve` (lines 281-306). -/
def approve (remote : Remote) (event : PullRequestEvent) : Act (Option Error) :=
  match event.pullRequest with
  | none => pure (some .noPullRequest)
  | some pr => do
    let res ← clientListReviews remote event.repoOwner event.repoName pr.number
    match res with
    | .error err => pure (some err)
    | .ok reviews =>
      if reviews.any (fun review => review.state == "APPROVED") then pure none else
      clientCreateReview remote event.repoOwner event.repoName pr.number "APPROVE"

/-- Method `Action.merge` (lines 308-323). -/
def merge (remote : Remote) (event : PullRequestEvent) : Act (Option Error) :=
  match event.pullRequest with
  | none => pure (some .noPullRequest)
  | some pr =>
    clientCreateComment remote event.repoOwner event.repoName pr.number "@dependabot merge"

/-- How one iteration of the loop of `run` ends: with a `return` of the whole
function, or by falling through to the next policy entry. -/
inductive Step
  | returned (err : Option Error)
  | next
  deriving DecidableEq, Repr

/-- Lines 155-165 of `run`: the check poll, and on an error or an incomplete
poll the rebase comment and a second poll. -/
def checkStage (remote : Remote) (event : PullRequestEvent) : Act Step := do
  let (res, err) ← verifyChecks remote event
  if err.isSome || !res then do
    let err ← rebase remote event
    match err with
    | some e => pure (.returned (some e))
    | none => do
      emit (.log "rebased PR")
      let (res, err) ← verifyChecks remote event
      if err.isSome || !res then pure (.returned (some .checksNotPassing)) else pure .next
  else pure .next

/-- Lines 167-179 of `run`: approve and merge, each under its flag. -/
def remediationStage (remote : Remote) (event : PullRequestEvent) (config : Config) :
    Act Step := do
  let approved ← (if config.autoapprove then do
      let err ← approve remote event
      match err with
      | some e => pure (Step.returned (some e))
      | none => do emit (.log "approved PR"); pure Step.next
    else pure Step.next : Act Step)
  match approved with
  | .returned err => pure (.returned err)
  | .next =>
    if config.automerge then do
      let err ← merge remote event
      match err with
      | some e => pure (.returned (some e))
      | none => do emit (.log "merged PR"); pure .next
    else pure .next

/-- The body of the loop of `run` for a policy entry whose repository matches
(lines 143-179). -/
def runEntry (remote : Remote) (event : PullRequestEvent) (config : Config) : Act Step := do
  emit (.log "running action")
  emit (.sleep 15)
  let (isOpen, err) ← checkPRisOpen remote event
  if err.isSome || !isOpen then pure (.returned err) else do
  let err ← verifyDependabot remote event
  match err with
  | some e => pure (.returned (some e))
  | none => do
    emit (.log "verified dependabot")
    let checked ← checkStage remote event
    match checked with
    | .returned err => pure (.returned err)
    | .next => do
      emit (.log "verified checks")
      remediationStage remote event config

/-- Method `Action.run` (lines 139-183): the loop over `a.configs`. -/
def run (remote : Remote) (event : PullRequestEvent) : List Config → Act (Option Error)
  | [] => pure none
  | config :: rest =>
    if config.repository == event.repoName then do
      let step ← runEntry remote event config
      match step with
      | .returned err => pure err
      | .next => run remote event rest
    else run remote event rest

/-! ## Vocabulary of the statements -/

/-- The effect is a remote call. -/
def Effect.isRemoteCall : Effect → Bool
  | .call _ _ => true
  | _ => false

/-- The effect is a `time.Sleep`. -/
def Effect.isSleep : Effect → Bool
  | .sleep _ => true
  | _ => false

/-- The effect is a `ListCheckRunsForRef` call. -/
def Effect.isCheckRunFetch : Effect → Bool
  | .call (.listCheckRunsForRef _ _ _) _ => true
  | _ => false

/-- The effect is a `ListReviews` call. -/
def Effect.isListReviews : Effect → Bool
  | .call (.listReviews _ _ _) _ => true
  | _ => false

/-- The effect is a `CreateReview` call. -/
def Effect.isCreateReview : Effect → Bool
  | .call (.createReview _ _ _ _) _ => true
  | _ => false

/-- The effect is a comment with the body "@dependabot rebase". -/
def Effect.isRebaseComment : Effect → Bool
  | .call (.createComment _ _ _ body) _ => body == "@dependabot rebase"
  | _ => false

/-- The effect is a comment with the body "@dependabot merge". -/
def Effect.isMergeComment : Effect → Bool
  | .call (.createComment _ _ _ body) _ => body == "@dependabot merge"
  | _ => false

/-- The seconds slept in a trace. -/
def sleptSeconds : List Effect → Nat
  | [] => 0
  | .sleep n :: rest => n + sleptSeconds rest
  | _ :: rest => sleptSeconds rest

/-- The effects of `n` attempts that each fetched the check runs, found one not
completed and slept for the interval. -/
def pollRounds (fetch : Effect) : Nat → List Effect
  | 0 => []
  | n + 1 => fetch :: Effect.sleep interval :: pollRounds fetch n

/-- The successful `ListCheckRunsForRef` call of the event. -/
def fetchOf (event : PullRequestEvent) (pr : PullRequest) : Effect :=
  .call (.listCheckRunsForRef event.repoOwner event.repoName pr.headSHA) none

/-- The call is a `ListCheckRunsForRef`. -/
def Call.isListCheckRuns : Call → Bool
  | .listCheckRunsForRef _ _ _ => true
  | _ => false

/-- The effect is a remote call that returned an error. -/
def Effect.isFailedCall : Effect → Bool
  | .call _ (some _) => true
  | _ => false

/-- The effect is a fetch of the check runs or a sleep. -/
def Effect.isPollEffect : Effect → Bool
  | .call (.listCheckRunsForRef _ _ _) _ => true
  | .sleep _ => true
  | _ => false

/-- The last effect seen that is neither a fetch of the check runs nor a sleep,
after the effects `t`, given the one before them.  Over the effects that precede a
fetch it is the log line that opened the poll of that fetch: "verified dependabot"
(line 153) for the first poll of an entry, "rebased PR" (line 159) for the second. -/
def lastMarker (m : Option Effect) : List Effect → Option Effect
  | [] => m
  | x :: rest => lastMarker (if x.isPollEffect then m else some x) rest

/-- What follows a failed `ListCheckRunsForRef` in a piece of workflow that ended
with `st`, `m` being the line that opened the poll.  In the first poll the next
effect is the rebase comment: posted, it is followed by the log line "rebased PR"
and the first fetch of the second poll; failed, it is the last effect and the piece
returned its error.  In the second poll nothing follows and the piece returned
"checks are not passing". -/
def FetchFailureFollowed (st : Step) (m : Option Effect) (rest : List Effect) : Prop :=
  (m = some (.log "verified dependabot") ∧
    ∃ owner repo number r tail,
      rest = .call (.createComment owner repo number "@dependabot rebase") r :: tail ∧
      (r = none → ∃ o p f e2 tail2,
        tail = .log "rebased PR" :: .call (.listCheckRunsForRef o p f) e2 :: tail2) ∧
      (∀ e1, r = some e1 → tail = [] ∧ st = .returned (some e1))) ∨
  (m = some (.log "rebased PR") ∧ rest = [] ∧ st = .returned (some .checksNotPassing))

/-- Every failed remote call of the trace is followed by what the code does after
it, given how the piece of workflow that produced the trace ended and the last
marker before the trace: after a failed call other than `ListCheckRunsForRef`
nothing follows and the piece returned that error; a failed `ListCheckRunsForRef`
is followed as `FetchFailureFollowed` says. -/
def Stops (st : Step) : Option Effect → List Effect → Prop
  | _, [] => True
  | m, .call c (some e) :: rest =>
    (if c.isListCheckRuns then FetchFailureFollowed st m rest
      else rest = [] ∧ st = .returned (some e)) ∧
    Stops st (if (Effect.call c (some e)).isPollEffect then m else some (.call c (some e))) rest
  | m, x :: rest => Stops st (if x.isPollEffect then m else some x) rest

/-- Authorship verification passes from cursor `s`: the author of the pull request
of the event is not dependabot, or `ListCommits` returns commits that are all
verified and authored by dependabot. -/
def AuthorshipPasses (remote : Remote) (pr : PullRequest) (s : Cursor) : Prop :=
  pr.userLogin ≠ "dependabot[bot]" ∨
    ∃ commits, remote.listCommits s.listCommits = .ok commits ∧
      ∀ c ∈ commits, c.verified = true ∧ c.authorLogin = "dependabot[bot]"

/-- The effects of an entry up to the log line "verified dependabot", when the pull
request is open and authorship verification passes. -/
def gateEffects (event : PullRequestEvent) (pr : PullRequest) : List Effect :=
  [.log "running action", .sleep 15,
    .call (.getPullRequest event.repoOwner event.repoName pr.number) none] ++
  (if pr.userLogin = "dependabot[bot]"
    then [.call (.listCommits event.repoOwner event.repoName pr.number) none] else []) ++
  [.log "verified dependabot"]

/-- The cursor after the effects of `gateEffects`. -/
def gateCursor (pr : PullRequest) (s : Cursor) : Cursor :=
  { s with
    getPullRequest := s.getPullRequest + 1
    listCommits := s.listCommits + (if pr.userLogin = "dependabot[bot]" then 1 else 0) }

/-- The rebase comment of the event, posted without error. -/
def rebaseComment (event : PullRequestEvent) (pr : PullRequest) : Effect :=
  .call (.createComment event.repoOwner event.repoName pr.number "@dependabot rebase") none

/-- The merge comment of the event, posted without error. -/
def mergeComment (event : PullRequestEvent) (pr : PullRequest) : Effect :=
  .call (.createComment event.repoOwner event.repoName pr.number "@dependabot merge") none

/-- Some review of the list is in the state APPROVED. -/
def alreadyApproved (reviews : List PullRequestReview) : Bool :=
  reviews.any fun review => review.state == "APPROVED"

/-- The effects of a successful `approve` over the listed reviews. -/
def approveEffects (event : PullRequestEvent) (pr : PullRequest)
    (reviews : List PullRequestReview) : List Effect :=
  .call (.listReviews event.repoOwner event.repoName pr.number) none ::
    (if alreadyApproved reviews then []
      else [.call (.createReview event.repoOwner event.repoName pr.number "APPROVE") none])

/-- The effects of lines 167-179 when every call succeeds: approve under
`autoapprove`, then the merge comment under `automerge`. -/
def remediationEffects (event : PullRequestEvent) (pr : PullRequest) (config : Config)
    (reviews : List PullRequestReview) : List Effect :=
  (if config.autoapprove then approveEffects event pr reviews ++ [.log "approved PR"] else []) ++
  (if config.automerge then [mergeComment event pr, .log "merged PR"] else [])

/-! ## Concrete inputs -/

/-- A pull request number 7 opened by dependabot. -/
def samplePullRequest : PullRequest := ⟨7, "dependabot[bot]", "abc123", "open"⟩

/-- An "opened" event of repository `octo/x` for `samplePullRequest`. -/
def sampleEvent : PullRequestEvent := ⟨"octo", "x", "opened", some samplePullRequest⟩

/-- A server on which every call succeeds: the pull request is open, its one commit
is verified and by dependabot, its one check run is completed, it has no review. -/
def healthyRemote : Remote where
  getPullRequest := fun _ => .ok samplePullRequest
  listCommits := fun _ => .ok [⟨true, "dependabot[bot]"⟩]
  listCheckRunsForRef := fun _ => .ok [⟨"completed"⟩]
  listReviews := fun _ => .ok []
  createReview := fun _ => none
  createComment := fun _ => none

/-- The healthy server, except that `GetPullRequest` fails. -/
def downRemote : Remote :=
  { healthyRemote with getPullRequest := fun _ => .error (.remote "503") }

/-- The healthy server, except that the first `ListCheckRunsForRef` fails. -/
def flakyChecksRemote : Remote :=
  { healthyRemote with
    listCheckRunsForRef := fun i => if i = 0 then .error (.remote "502") else .ok [⟨"completed"⟩] }

/-- The healthy server, except that the pull request already has an approved review. -/
def approvedRemote : Remote :=
  { healthyRemote with listReviews := fun _ => .ok [⟨"APPROVED"⟩] }

/-- The healthy server, except that the commit of the pull request is not verified. -/
def unsignedRemote : Remote :=
  { healthyRemote with listCommits := fun _ => .ok [⟨false, "dependabot[bot]"⟩] }

/-- The healthy server, except that the check run never completes. -/
def pendingRemote : Remote :=
  { healthyRemote with listCheckRunsForRef := fun _ => .ok [⟨"in_progress"⟩] }

/-- The healthy server, except that the check run completes only at the 14th fetch. -/
def slowRemote : Remote :=
  { healthyRemote with
    listCheckRunsForRef := fun i => if i < 13 then .ok [⟨"in_progress"⟩] else .ok [⟨"completed"⟩] }

/-- The healthy server, except that the pull request is closed. -/
def closedRemote : Remote :=
  { healthyRemote with getPullRequest := fun _ => .ok { samplePullRequest with state := "closed" } }

/-- The healthy server, except that the commit has no check run. -/
def noChecksRemote : Remote :=
  { healthyRemote with listCheckRunsForRef := fun _ => .ok [] }

/-- The healthy server, except that the check run stays in progress over the first
12 fetches and every later `ListCheckRunsForRef` fails. -/
def brokenSecondPollRemote : Remote :=
  { healthyRemote with
    listCheckRunsForRef := fun i =>
      if i < 12 then .ok [⟨"in_progress"⟩] else .error (.remote "502") }

/-! ## Sequencing lemmas -/

@[simp] theorem Act.pure_apply {α : Type} (a : α) (s : Cursor) :
    (pure a : Act α) s = ⟨a, s, []⟩ := rfl

@[simp] theorem Act.bind_apply {α β : Type} (m : Act α) (f : α → Act β) (s : Cursor) :
    (m >>= f) s = ⟨(f (m s).value (m s).cursor).value, (f (m s).value (m s).cursor).cursor,
      (m s).trace ++ (f (m s).value (m s).cursor).trace⟩ := rfl

@[simp] theorem emit_apply (e : Effect) (s : Cursor) : emit e s = ⟨(), s, [e]⟩ := rfl

/-! ## The loop over the policy table -/

theorem run_skip (remote : Remote) (event : PullRequestEvent) (c : Config) (rest : List Config)
    (h : c.repository ≠ event.repoName) :
    run remote event (c :: rest) = run remote event rest := by
  simp [run, h]

theorem run_no_match (remote : Remote) (event : PullRequestEvent) (configs : List Config)
    (s : Cursor) (h : ∀ c ∈ configs, c.repository ≠ event.repoName) :
    run remote event configs s = ⟨none, s, []⟩ := by
  induction configs with
  | nil => rfl
  | cons c rest ih =>
    rw [run_skip remote event c rest (h c (List.mem_cons_self _ _))]
    exact ih fun c hc => h c (List.mem_cons_of_mem _ hc)

/-! ## The check poll -/

theorem count_fetch_pollRounds (fetch : Effect) (h : fetch.isCheckRunFetch = true) (n : Nat) :
    (pollRounds fetch n).countP Effect.isCheckRunFetch = n := by
  induction n with
  | zero => rfl
  | succ n ih =>
    have hs : (Effect.sleep interval).isCheckRunFetch = false := rfl
    simp [pollRounds, List.countP_cons, h, ih, hs]

theorem count_sleep_pollRounds (fetch : Effect) (h : fetch.isSleep = false) (n : Nat) :
    (pollRounds fetch n).countP Effect.isSleep = n := by
  induction n with
  | zero => rfl
  | succ n ih =>
    have hs : (Effect.sleep interval).isSleep = true := rfl
    simp [pollRounds, List.countP_cons, h, ih, hs]

theorem sleptSeconds_pollRounds (c : Call) (n : Nat) :
    sleptSeconds (pollRounds (.call c none) n) = interval * n := by
  induction n with
  | zero => rfl
  | succ n ih => simp [pollRounds, sleptSeconds, ih, Nat.mul_succ, Nat.add_comm]

theorem sleptSeconds_append (xs ys : List Effect) :
    sleptSeconds (xs ++ ys) = sleptSeconds xs + sleptSeconds ys := by
  induction xs with
  | nil => simp [sleptSeconds]
  | cons x xs ih => cases x <;> simp [sleptSeconds, ih, Nat.add_assoc]

theorem allChecksCompleted_eq_true (checks : List CheckRun) :
    allChecksCompleted checks = true ↔ ∀ c ∈ checks, c.status = "completed" := by
  simp [allChecksCompleted]

theorem allChecksCompleted_eq_false (checks : List CheckRun) :
    allChecksCompleted checks = false ↔ ∃ c ∈ checks, c.status ≠ "completed" := by
  simp [allChecksCompleted]

theorem loop_exhausted (remote : Remote) (owner repo sha : String) (n : Nat) :
    ∀ (b : Bool) (s : Cursor),
    (∀ i, i < n → ∃ checks, remote.listCheckRunsForRef (s.listCheckRunsForRef + i) = .ok checks
      ∧ allChecksCompleted checks = false) →
    verifyChecksLoop remote owner repo sha n b s =
      ⟨(if n = 0 then b else false, none),
       { s with listCheckRunsForRef := s.listCheckRunsForRef + n },
       pollRounds (.call (.listCheckRunsForRef owner repo sha) none) n⟩ := by
  induction n with
  | zero => intro b s _; rfl
  | succ n ih =>
    intro b s h
    obtain ⟨checks, h0, hc⟩ := h 0 (Nat.succ_pos n)
    simp only [Nat.add_zero] at h0
    have ih' := ih false { s with listCheckRunsForRef := s.listCheckRunsForRef + 1 } (by
      intro i hi
      have := h (i + 1) (Nat.succ_lt_succ hi)
      simpa [Nat.add_assoc, Nat.add_comm 1 i] using this)
    simp [verifyChecksLoop, clientListCheckRunsForRef, h0, hc, ih', pollRounds]
    omega

theorem loop_completes (remote : Remote) (owner repo sha : String) (n : Nat) :
    ∀ (k : Nat) (b : Bool) (s : Cursor), k < n →
    (∀ i, i < k → ∃ checks, remote.listCheckRunsForRef (s.listCheckRunsForRef + i) = .ok checks
      ∧ allChecksCompleted checks = false) →
    (∃ checks, remote.listCheckRunsForRef (s.listCheckRunsForRef + k) = .ok checks
      ∧ allChecksCompleted checks = true) →
    verifyChecksLoop remote owner repo sha n b s =
      ⟨(true, none),
       { s with listCheckRunsForRef := s.listCheckRunsForRef + (k + 1) },
       pollRounds (.call (.listCheckRunsForRef owner repo sha) none) k ++
         [.call (.listCheckRunsForRef owner repo sha) none]⟩ := by
  induction n with
  | zero => intro k b s hk; omega
  | succ n ih =>
    intro k b s hk hinc hdone
    cases k with
    | zero =>
      obtain ⟨checks, h0, hc⟩ := hdone
      simp only [Nat.add_zero] at h0
      simp [verifyChecksLoop, clientListCheckRunsForRef, h0, hc, pollRounds]
    | succ k =>
      obtain ⟨checks, h0, hc⟩ := hinc 0 (Nat.succ_pos k)
      simp only [Nat.add_zero] at h0
      have ih' := ih k false { s with listCheckRunsForRef := s.listCheckRunsForRef + 1 }
        (Nat.lt_of_succ_lt_succ hk)
        (by
          intro i hi
          have := hinc (i + 1) (Nat.succ_lt_succ hi)
          simpa [Nat.add_assoc, Nat.add_comm 1 i] using this)
        (by simpa [Nat.add_assoc, Nat.add_comm 1 k] using hdone)
      simp [verifyChecksLoop, clientListCheckRunsForRef, h0, hc, ih', pollRounds]
      omega

theorem verifyChecks_completes (remote : Remote) (event : PullRequestEvent) (pr : PullRequest)
    (s : Cursor) (k : Nat) (hpr : event.pullRequest = some pr) (hk : k < maxAttempts)
    (hinc : ∀ i, i < k → ∃ checks,
      remote.listCheckRunsForRef (s.listCheckRunsForRef + i) = .ok checks
        ∧ allChecksCompleted checks = false)
    (hdone : ∃ checks, remote.listCheckRunsForRef (s.listCheckRunsForRef + k) = .ok checks
      ∧ allChecksCompleted checks = true) :
    verifyChecks remote event s =
      ⟨(true, none), { s with listCheckRunsForRef := s.listCheckRunsForRef + (k + 1) },
       pollRounds (fetchOf event pr) k ++ [fetchOf event pr]⟩ := by
  simp only [verifyChecks, hpr]
  exact loop_completes remote event.repoOwner event.repoName pr.headSHA maxAttempts k true s
    hk hinc hdone

theorem verifyChecks_exhausted (remote : Remote) (event : PullRequestEvent) (pr : PullRequest)
    (s : Cursor) (hpr : event.pullRequest = some pr)
    (hinc : ∀ i, i < maxAttempts → ∃ checks,
      remote.listCheckRunsForRef (s.listCheckRunsForRef + i) = .ok checks
        ∧ allChecksCompleted checks = false) :
    verifyChecks remote event s =
      ⟨(false, none), { s with listCheckRunsForRef := s.listCheckRunsForRef + maxAttempts },
       pollRounds (fetchOf event pr) maxAttempts⟩ := by
  simp only [verifyChecks, hpr]
  exact loop_exhausted remote event.repoOwner event.repoName pr.headSHA maxAttempts true s hinc


/-! ## What follows a failed remote call -/

theorem lastMarker_append (m : Option Effect) (t1 t2 : List Effect) :
    lastMarker m (t1 ++ t2) = lastMarker (lastMarker m t1) t2 := by
  induction t1 generalizing m with
  | nil => rfl
  | cons x rest ih => simp [lastMarker, ih]

theorem lastMarker_poll (m : Option Effect) (t : List Effect)
    (h : ∀ x ∈ t, x.isPollEffect = true) : lastMarker m t = m := by
  induction t with
  | nil => rfl
  | cons x rest ih =>
    have hx := h x (List.mem_cons_self _ _)
    simp only [lastMarker, hx, if_true]
    exact ih fun y hy => h y (List.mem_cons_of_mem _ hy)

theorem Stops.cons_ok (st : Step) (m : Option Effect) (x : Effect) (rest : List Effect)
    (hx : x.isFailedCall = false) :
    Stops st m (x :: rest) ↔ Stops st (if x.isPollEffect then m else some x) rest := by
  match x, hx with
  | .log _, _ => simp [Stops]
  | .sleep _, _ => simp [Stops]
  | .call _ none, _ => simp [Stops]

theorem Stops.of_clean (st : Step) (t : List Effect) (h : ∀ x ∈ t, x.isFailedCall = false) :
    ∀ m, Stops st m t := by
  induction t with
  | nil => intro m; trivial
  | cons x rest ih =>
    intro m
    rw [Stops.cons_ok st m x rest (h x (List.mem_cons_self _ _))]
    exact ih (fun y hy => h y (List.mem_cons_of_mem _ hy)) _

theorem fetchFailureFollowed_extend (st : Step) (m : Option Effect) (rest t2 : List Effect)
    (h : FetchFailureFollowed .next m rest) : FetchFailureFollowed st m (rest ++ t2) := by
  rcases h with ⟨hm, owner, repo, number, r, tail, hrest, hposted, hfailed⟩ | ⟨_, _, h⟩
  · left
    cases r with
    | some e1 => exact absurd (hfailed e1 rfl).2 (by simp)
    | none =>
      obtain ⟨o, p, f, e2, tail2, htail⟩ := hposted rfl
      refine ⟨hm, owner, repo, number, none, tail ++ t2, by simp [hrest], ?_, ?_⟩
      · intro _
        exact ⟨o, p, f, e2, tail2 ++ t2, by simp [htail]⟩
      · intro e1 h1
        cases h1
  · cases h

theorem Stops.append (st : Step) (t1 t2 : List Effect) :
    ∀ m, Stops .next m t1 → Stops st (lastMarker m t1) t2 → Stops st m (t1 ++ t2) := by
  induction t1 with
  | nil => intro m _ h2; simpa [lastMarker] using h2
  | cons x rest ih =>
    intro m h1 h2
    match x with
    | .log _ => exact ih _ (by simpa [Stops] using h1) (by simpa [lastMarker] using h2)
    | .sleep _ => exact ih _ (by simpa [Stops] using h1) (by simpa [lastMarker] using h2)
    | .call _ none =>
      exact ih _ (by simpa [Stops] using h1) (by simpa [lastMarker] using h2)
    | .call c (some e) =>
      simp only [Stops, List.cons_append] at h1 ⊢
      refine ⟨?_, ih _ h1.2 (by simpa [lastMarker] using h2)⟩
      by_cases hc : c.isListCheckRuns = true
      · simp only [hc, if_true] at h1 ⊢
        exact fetchFailureFollowed_extend st m rest t2 h1.1
      · simp only [hc] at h1
        simp at h1

theorem Stops.sound (st : Step) (t : List Effect) (front back : List Effect)
    (c : Call) (e : Error) (ht : t = front ++ Effect.call c (some e) :: back) :
    ∀ m, Stops st m t →
    (c.isListCheckRuns = false → back = [] ∧ st = .returned (some e)) ∧
    (c.isListCheckRuns = true → FetchFailureFollowed st (lastMarker m front) back) := by
  subst ht
  induction front with
  | nil =>
    intro m h
    simp only [List.nil_append, Stops] at h
    constructor
    · intro hc
      simpa [hc] using h.1
    · intro hc
      simpa [hc, lastMarker] using h.1
  | cons x rest ih =>
    intro m h
    have h' : Stops st (if x.isPollEffect then m else some x)
        (rest ++ Effect.call c (some e) :: back) := by
      match x with
      | .log _ => simpa [Stops] using h
      | .sleep _ => simpa [Stops] using h
      | .call _ none => simpa [Stops] using h
      | .call _ (some _) => exact (by simpa [Stops] using h : _ ∧ _).2
    simpa [lastMarker] using ih _ h'

theorem Stops.clean_append (st : Step) (t1 t2 : List Effect) (m : Option Effect)
    (h1 : ∀ x ∈ t1, x.isFailedCall = false) (h2 : Stops st (lastMarker m t1) t2) :
    Stops st m (t1 ++ t2) :=
  Stops.append st t1 t2 m (Stops.of_clean .next t1 h1 m) h2

theorem loop_shape (remote : Remote) (owner repo sha : String) (n : Nat) :
    ∀ (b : Bool) (s : Cursor),
    (∀ x ∈ (verifyChecksLoop remote owner repo sha n b s).trace, x.isPollEffect = true) ∧
    (((verifyChecksLoop remote owner repo sha n b s).value.2 = none ∧
      ∀ x ∈ (verifyChecksLoop remote owner repo sha n b s).trace, x.isFailedCall = false) ∨
    ∃ clean e,
      (verifyChecksLoop remote owner repo sha n b s).trace =
        clean ++ [.call (.listCheckRunsForRef owner repo sha) (some e)] ∧
      (∀ x ∈ clean, x.isFailedCall = false) ∧
      (verifyChecksLoop remote owner repo sha n b s).value = (false, some e)) := by
  induction n with
  | zero => intro b s; simp [verifyChecksLoop]
  | succ n ih =>
    intro b s
    cases h0 : remote.listCheckRunsForRef s.listCheckRunsForRef with
    | error e =>
      refine ⟨?_, Or.inr ⟨[], e, ?_⟩⟩ <;>
        simp [verifyChecksLoop, clientListCheckRunsForRef, h0, Effect.isPollEffect]
    | ok checks =>
      by_cases hc : allChecksCompleted checks = true
      · refine ⟨?_, Or.inl ?_⟩ <;>
          simp [verifyChecksLoop, clientListCheckRunsForRef, h0, hc, Effect.isFailedCall,
            Effect.isPollEffect]
      · obtain ⟨hp, hshape⟩ := ih false { s with listCheckRunsForRef := s.listCheckRunsForRef + 1 }
        constructor
        · intro x hx
          simp [verifyChecksLoop, clientListCheckRunsForRef, h0, hc] at hx
          rcases hx with rfl | rfl | hx
          · rfl
          · rfl
          · exact hp x hx
        · rcases hshape with ⟨hv, ht⟩ | ⟨clean, e, ht, hclean, hv⟩
          · left
            simp [verifyChecksLoop, clientListCheckRunsForRef, h0, hc, Effect.isFailedCall, hv]
            exact ht
          · right
            refine ⟨.call (.listCheckRunsForRef owner repo sha) none :: .sleep interval :: clean,
              e, ?_, ?_, ?_⟩
            · simp [verifyChecksLoop, clientListCheckRunsForRef, h0, hc, ht]
            · intro x hx
              simp only [List.mem_cons] at hx
              rcases hx with rfl | rfl | hx
              · rfl
              · rfl
              · exact hclean x hx
            · simp [verifyChecksLoop, clientListCheckRunsForRef, h0, hc, hv]

theorem verifyChecks_shape (remote : Remote) (event : PullRequestEvent) (pr : PullRequest)
    (hpr : event.pullRequest = some pr) (s : Cursor) :
    (∀ x ∈ (verifyChecks remote event s).trace, x.isPollEffect = true) ∧
    (((verifyChecks remote event s).value.2 = none ∧
      ∀ x ∈ (verifyChecks remote event s).trace, x.isFailedCall = false) ∨
    ∃ clean e,
      (verifyChecks remote event s).trace =
        clean ++ [.call (.listCheckRunsForRef event.repoOwner event.repoName pr.headSHA) (some e)] ∧
      (∀ x ∈ clean, x.isFailedCall = false) ∧
      (verifyChecks remote event s).value = (false, some e)) := by
  simp only [verifyChecks, hpr]
  exact loop_shape remote event.repoOwner event.repoName pr.headSHA maxAttempts true s

theorem loop_head (remote : Remote) (owner repo sha : String) (n : Nat) (b : Bool) (s : Cursor) :
    ∃ e2 tail, (verifyChecksLoop remote owner repo sha (n + 1) b s).trace =
      .call (.listCheckRunsForRef owner repo sha) e2 :: tail := by
  simp only [verifyChecksLoop, Act.bind_apply, clientListCheckRunsForRef]
  exact ⟨_, _, rfl⟩

theorem verifyChecks_head (remote : Remote) (event : PullRequestEvent) (pr : PullRequest)
    (hpr : event.pullRequest = some pr) (s : Cursor) :
    ∃ o p f e2 tail, (verifyChecks remote event s).trace =
      .call (.listCheckRunsForRef o p f) e2 :: tail := by
  simp only [verifyChecks, hpr]
  obtain ⟨e2, tail, h⟩ := loop_head remote event.repoOwner event.repoName pr.headSHA 11 true s
  exact ⟨_, _, _, e2, tail, h⟩

theorem Stops.failed_fetch_cons (st : Step) (m : Option Effect) (owner repo sha : String)
    (e : Error) (rest : List Effect) (hf : FetchFailureFollowed st m rest)
    (hr : Stops st m rest) :
    Stops st m (.call (.listCheckRunsForRef owner repo sha) (some e) :: rest) := by
  simp [Stops, Call.isListCheckRuns, Effect.isPollEffect, hf, hr]

theorem Stops.poll_then (st : Step) (m : Option Effect) (poll rest : List Effect)
    (hpoll : ∀ x ∈ poll, x.isPollEffect = true)
    (hshape : (∀ x ∈ poll, x.isFailedCall = false) ∨
      ((∃ clean owner repo sha e,
        poll = clean ++ [.call (.listCheckRunsForRef owner repo sha) (some e)] ∧
          ∀ x ∈ clean, x.isFailedCall = false) ∧ FetchFailureFollowed st m rest))
    (hs : Stops st m rest) : Stops st m (poll ++ rest) := by
  rcases hshape with hclean | ⟨⟨clean, owner, repo, sha, e, rfl, hclean⟩, hf⟩
  · apply Stops.clean_append st poll rest m hclean
    rw [lastMarker_poll m poll hpoll]
    exact hs
  · rw [List.append_assoc]
    have hp : ∀ x ∈ clean, x.isPollEffect = true := fun x hx =>
      hpoll x (List.mem_append_left _ hx)
    apply Stops.clean_append st clean _ m hclean
    rw [lastMarker_poll m clean hp]
    exact Stops.failed_fetch_cons st m owner repo sha e rest hf hs

theorem secondPoll_stops (remote : Remote) (event : PullRequestEvent) (pr : PullRequest)
    (hpr : event.pullRequest = some pr) (s : Cursor) :
    Stops (if ((verifyChecks remote event s).value.2.isSome ||
        !(verifyChecks remote event s).value.1) = true
      then .returned (some .checksNotPassing) else .next)
      (some (.log "rebased PR")) (verifyChecks remote event s).trace := by
  obtain ⟨hpoll, hshape⟩ := verifyChecks_shape remote event pr hpr s
  have h := Stops.poll_then
    (if ((verifyChecks remote event s).value.2.isSome ||
        !(verifyChecks remote event s).value.1) = true
      then .returned (some .checksNotPassing) else .next)
    (some (.log "rebased PR")) (verifyChecks remote event s).trace [] hpoll
    (by
      rcases hshape with ⟨_, hclean⟩ | ⟨clean, e, ht, hclean, hv⟩
      · exact Or.inl hclean
      · right
        refine ⟨⟨clean, _, _, _, e, ht, hclean⟩, Or.inr ⟨rfl, rfl, ?_⟩⟩
        simp [hv])
    trivial
  simpa using h

theorem rebase_posted_tail (st : Step) (owner repo : String) (number : Int)
    (poll : List Effect) (h2 : Stops st (some (.log "rebased PR")) poll)
    (hhead : ∃ o p f e2 tail, poll = .call (.listCheckRunsForRef o p f) e2 :: tail) :
    Stops st (some (.log "verified dependabot"))
      (.call (.createComment owner repo number "@dependabot rebase") none ::
        .log "rebased PR" :: poll) ∧
    FetchFailureFollowed st (some (.log "verified dependabot"))
      (.call (.createComment owner repo number "@dependabot rebase") none ::
        .log "rebased PR" :: poll) := by
  constructor
  · simpa [Stops, Effect.isPollEffect] using h2
  · obtain ⟨o, p, f, e2, tail, rfl⟩ := hhead
    refine Or.inl ⟨rfl, owner, repo, number, none, _, rfl,
      fun _ => ⟨o, p, f, e2, tail, rfl⟩, ?_⟩
    intro e1 h
    cases h

theorem rebase_failed_tail (owner repo : String) (number : Int) (e1 : Error) :
    Stops (.returned (some e1)) (some (.log "verified dependabot"))
      [.call (.createComment owner repo number "@dependabot rebase") (some e1)] ∧
    FetchFailureFollowed (.returned (some e1)) (some (.log "verified dependabot"))
      [.call (.createComment owner repo number "@dependabot rebase") (some e1)] := by
  constructor
  · simp [Stops, Call.isListCheckRuns]
  · refine Or.inl ⟨rfl, owner, repo, number, some e1, [], rfl, ?_, ?_⟩
    · intro h
      cases h
    · intro e h
      cases h
      exact ⟨rfl, rfl⟩

theorem checkStage_stops (remote : Remote) (event : PullRequestEvent) (s : Cursor) :
    Stops (checkStage remote event s).value (some (.log "verified dependabot"))
      (checkStage remote event s).trace := by
  cases hpr : event.pullRequest with
  | none => simp [checkStage, verifyChecks, rebase, hpr, Stops]
  | some pr =>
    obtain ⟨hpoll, h1⟩ := verifyChecks_shape remote event pr hpr s
    simp only [checkStage, Act.bind_apply]
    generalize verifyChecks remote event s = o1 at h1 hpoll ⊢
    obtain ⟨⟨b1, err1⟩, c1, t1⟩ := o1
    simp only at h1 hpoll
    -- the first poll reported completion
    by_cases hgood : err1 = none ∧ b1 = true
    · obtain ⟨rfl, rfl⟩ := hgood
      rcases h1 with ⟨_, ht⟩ | ⟨clean, e, _, _, hv⟩
      · simp
        exact Stops.of_clean _ _ ht _
      · cases hv
    -- otherwise the rebase comment follows
    have hbad : (err1.isSome || !b1) = true := by
      cases err1 <;> cases b1 <;> simp at hgood ⊢
    have hthen : ∀ (st : Step) (rest : List Effect),
        Stops st (some (.log "verified dependabot")) rest →
        FetchFailureFollowed st (some (.log "verified dependabot")) rest →
        Stops st (some (.log "verified dependabot")) (t1 ++ rest) := by
      intro st rest hs hf
      apply Stops.poll_then st _ t1 rest hpoll _ hs
      rcases h1 with ⟨_, ht⟩ | ⟨clean, e, ht, hclean, _⟩
      · exact Or.inl ht
      · exact Or.inr ⟨⟨clean, _, _, _, e, ht, hclean⟩, hf⟩
    cases hcomment : remote.createComment c1.createComment with
    | some e1 =>
      obtain ⟨hs, hf⟩ := rebase_failed_tail event.repoOwner event.repoName pr.number e1
      simpa [hbad, rebase, hpr, clientCreateComment, hcomment] using hthen _ _ hs hf
    | none =>
      have h2 := secondPoll_stops remote event pr hpr
        { c1 with createComment := c1.createComment + 1 }
      have hhead := verifyChecks_head remote event pr hpr
        { c1 with createComment := c1.createComment + 1 }
      simp [hbad, rebase, hpr, clientCreateComment, hcomment]
      generalize verifyChecks remote event { c1 with createComment := c1.createComment + 1 }
        = o3 at h2 hhead ⊢
      obtain ⟨hs, hf⟩ := rebase_posted_tail _ event.repoOwner event.repoName pr.number
        o3.trace h2 hhead
      have hr := hthen _ _ hs hf
      obtain ⟨⟨b3, err3⟩, c3, t3⟩ := o3
      cases b3 <;> cases err3 <;> simpa using hr

theorem remediationStage_stops (remote : Remote) (event : PullRequestEvent) (config : Config)
    (s : Cursor) (m : Option Effect) :
    Stops (remediationStage remote event config s).value m
      (remediationStage remote event config s).trace := by
  cases hpr : event.pullRequest with
  | none =>
    cases ha : config.autoapprove <;> cases hm : config.automerge <;>
      simp [remediationStage, approve, merge, hpr, ha, hm, Stops]
  | some pr =>
    cases hcm : remote.createComment s.createComment <;>
    cases ha : config.autoapprove <;> cases hm : config.automerge <;>
    try (simp [remediationStage, approve, merge, hpr, ha, hm, Stops, clientCreateComment, hcm,
        Call.isListCheckRuns, Effect.isPollEffect]; done)
    all_goals
      cases hl : remote.listReviews s.listReviews with
      | error e =>
        simp [remediationStage, approve, merge, hpr, ha, hm, Stops, clientListReviews,
          clientCreateReview, clientCreateComment, hl, hcm, Call.isListCheckRuns,
          Effect.isPollEffect]
      | ok reviews =>
        by_cases happ : ∃ x ∈ reviews, x.state = "APPROVED"
        · simp [remediationStage, approve, merge, hpr, ha, hm, Stops, clientListReviews,
            clientCreateReview, clientCreateComment, hl, hcm, Call.isListCheckRuns, happ,
            Effect.isPollEffect]
        · cases hc : remote.createReview s.createReview <;>
          simp [remediationStage, approve, merge, hpr, ha, hm, Stops, clientListReviews,
            clientCreateReview, clientCreateComment, hl, hcm, Call.isListCheckRuns, happ, hc,
            Effect.isPollEffect]

theorem afterGate_stops (remote : Remote) (event : PullRequestEvent) (config : Config)
    (m : Option Effect) (front : List Effect) (hfront : ∀ x ∈ front, x.isFailedCall = false)
    (hm : lastMarker m front = some (.log "verified dependabot"))
    (o : Outcome Step) (ho : Stops o.value (some (.log "verified dependabot")) o.trace) :
    Stops
      (match o.value with
        | .returned err => Step.returned err
        | .next => (remediationStage remote event config o.cursor).value) m
      (front ++ (o.trace ++
        (match o.value with
        | .returned _ => []
        | .next => Effect.log "verified checks" ::
            (remediationStage remote event config o.cursor).trace))) := by
  apply Stops.clean_append _ _ _ m hfront
  rw [hm]
  obtain ⟨v, c, t⟩ := o
  cases v with
  | returned err => simpa using ho
  | next =>
    apply Stops.append _ _ _ _ ho
    rw [Stops.cons_ok _ _ (Effect.log "verified checks") _ rfl]
    exact remediationStage_stops remote event config c _

theorem runEntry_stops (remote : Remote) (event : PullRequestEvent) (config : Config)
    (s : Cursor) (m : Option Effect) :
    Stops (runEntry remote event config s).value m (runEntry remote event config s).trace := by
  cases hpr : event.pullRequest with
  | none => simp [runEntry, checkPRisOpen, hpr, Stops]
  | some pr =>
    cases hg : remote.getPullRequest s.getPullRequest with
    | error e =>
      simp [runEntry, checkPRisOpen, hpr, clientGetPullRequest, hg, Stops, Call.isListCheckRuns]
    | ok live =>
      by_cases hopen : live.state = "open"
      · by_cases hbot : pr.userLogin = "dependabot[bot]"
        · cases hl : remote.listCommits s.listCommits with
          | error e =>
            simp [runEntry, checkPRisOpen, hpr, clientGetPullRequest, hg, Stops, hopen,
              verifyDependabot, hbot, clientListCommits, hl, Call.isListCheckRuns]
          | ok commits =>
            by_cases hrej : ∃ x ∈ commits, commitRejected x = true
            · simp [runEntry, checkPRisOpen, hpr, clientGetPullRequest, hg, Stops, hopen,
                verifyDependabot, hbot, clientListCommits, hl, hrej]
            · have ho := checkStage_stops remote event
                { s with getPullRequest := s.getPullRequest + 1, listCommits := s.listCommits + 1 }
              simp [runEntry, checkPRisOpen, hpr, clientGetPullRequest, hg, hopen,
                verifyDependabot, hbot, clientListCommits, hl, hrej]
              generalize checkStage remote event
                { s with getPullRequest := s.getPullRequest + 1, listCommits := s.listCommits + 1 }
                = o at ho ⊢
              have h := afterGate_stops remote event config m
                [.log "running action", .sleep 15,
                 .call (.getPullRequest event.repoOwner event.repoName pr.number) none,
                 .call (.listCommits event.repoOwner event.repoName pr.number) none,
                 .log "verified dependabot"] (by simp [Effect.isFailedCall])
                (by simp [lastMarker, Effect.isPollEffect]) o ho
              obtain ⟨v, c, t⟩ := o
              cases v <;> simpa using h
        · have ho := checkStage_stops remote event
            { s with getPullRequest := s.getPullRequest + 1 }
          simp [runEntry, checkPRisOpen, hpr, clientGetPullRequest, hg, hopen,
            verifyDependabot, hbot]
          generalize checkStage remote event { s with getPullRequest := s.getPullRequest + 1 }
            = o at ho ⊢
          have h := afterGate_stops remote event config m
            [.log "running action", .sleep 15,
             .call (.getPullRequest event.repoOwner event.repoName pr.number) none,
             .log "verified dependabot"] (by simp [Effect.isFailedCall])
            (by simp [lastMarker, Effect.isPollEffect]) o ho
          obtain ⟨v, c, t⟩ := o
          cases v <;> simpa using h
      · simp [runEntry, checkPRisOpen, hpr, clientGetPullRequest, hg, Stops, hopen]

theorem run_stops (remote : Remote) (event : PullRequestEvent) (configs : List Config) :
    ∀ (s : Cursor) (m : Option Effect), Stops (.returned (run remote event configs s).value) m
      (run remote event configs s).trace := by
  induction configs with
  | nil => intro s m; simp [run, Stops]
  | cons config rest ih =>
    intro s m
    by_cases hm : config.repository = event.repoName
    · have ho := runEntry_stops remote event config s m
      simp only [run, hm, beq_self_eq_true, if_true, Act.bind_apply]
      generalize runEntry remote event config s = o at ho ⊢
      obtain ⟨v, c, t⟩ := o
      cases v with
      | returned err => simpa using ho
      | next => exact Stops.append _ _ _ _ ho (ih c _)
    · rw [run_skip remote event config rest hm]
      exact ih s m

/-! ## Scenarios of one policy entry -/

theorem run_cons_match (remote : Remote) (event : PullRequestEvent) (config : Config)
    (rest : List Config) (s : Cursor) (hm : config.repository = event.repoName) :
    run remote event (config :: rest) s =
      match (runEntry remote event config s).value with
      | .returned err =>
        ⟨err, (runEntry remote event config s).cursor, (runEntry remote event config s).trace⟩
      | .next =>
        ⟨(run remote event rest (runEntry remote event config s).cursor).value,
         (run remote event rest (runEntry remote event config s).cursor).cursor,
         (runEntry remote event config s).trace ++
           (run remote event rest (runEntry remote event config s).cursor).trace⟩ := by
  simp only [run, hm, beq_self_eq_true, if_true, Act.bind_apply]
  generalize runEntry remote event config s = o
  obtain ⟨v, c, t⟩ := o
  cases v <;> simp

theorem run_first_match (remote : Remote) (event : PullRequestEvent) (configs : List Config)
    (h : ∃ c ∈ configs, c.repository = event.repoName) :
    ∃ config rest, config.repository = event.repoName ∧
      run remote event configs = run remote event (config :: rest) := by
  induction configs with
  | nil => simp at h
  | cons c rest ih =>
    by_cases hm : c.repository = event.repoName
    · exact ⟨c, rest, hm, rfl⟩
    · obtain ⟨c', hc', hm'⟩ := h
      have hmem : c' ∈ rest := by
        rcases List.mem_cons.1 hc' with rfl | h
        · exact absurd hm' hm
        · exact h
      obtain ⟨config, rest', hcfg, hrun⟩ := ih ⟨c', hmem, hm'⟩
      exact ⟨config, rest', hcfg, by rw [run_skip remote event c rest hm, hrun]⟩

theorem run_filter (remote : Remote) (event : PullRequestEvent) (configs : List Config) :
    run remote event configs =
      run remote event (configs.filter fun c => c.repository == event.repoName) := by
  induction configs with
  | nil => rfl
  | cons c rest ih =>
    by_cases hm : c.repository = event.repoName
    · funext s
      have hf : (c :: rest).filter (fun c => c.repository == event.repoName) =
          c :: rest.filter (fun c => c.repository == event.repoName) := by
        simp [List.filter_cons, hm]
      rw [hf, run_cons_match remote event c rest s hm, run_cons_match remote event c _ s hm, ih]
    · have hf : (c :: rest).filter (fun c => c.repository == event.repoName) =
          rest.filter (fun c => c.repository == event.repoName) := by
        simp [List.filter_cons, hm]
      rw [hf, run_skip remote event c rest hm, ih]

theorem run_single (remote : Remote) (event : PullRequestEvent) (configs : List Config)
    (config : Config) (s : Cursor)
    (hone : configs.filter (fun c => c.repository == event.repoName) = [config]) :
    (run remote event configs s).value =
      (match (runEntry remote event config s).value with
        | .returned err => err
        | .next => none) ∧
    (run remote event configs s).trace = (runEntry remote event config s).trace := by
  have hm : config.repository = event.repoName := by
    have hmem : config ∈ configs.filter (fun c => c.repository == event.repoName) := by
      rw [hone]; exact List.mem_singleton_self _
    simpa using (List.mem_filter.1 hmem).2
  rw [run_filter, hone, run_cons_match remote event config [] s hm]
  generalize runEntry remote event config s = o
  obtain ⟨v, c, t⟩ := o
  cases v <;> simp [run]

theorem verifyDependabot_passes (remote : Remote) (event : PullRequestEvent) (pr : PullRequest)
    (s : Cursor) (hpr : event.pullRequest = some pr) (hauth : AuthorshipPasses remote pr s) :
    verifyDependabot remote event s =
      ⟨none, { s with listCommits := s.listCommits +
          (if pr.userLogin = "dependabot[bot]" then 1 else 0) },
        if pr.userLogin = "dependabot[bot]"
          then [.call (.listCommits event.repoOwner event.repoName pr.number) none] else []⟩ := by
  by_cases hbot : pr.userLogin = "dependabot[bot]"
  · rcases hauth with h | ⟨commits, hl, hall⟩
    · exact absurd hbot h
    · have hrej : ¬ ∃ x ∈ commits, commitRejected x = true := by
        rintro ⟨x, hx, hr⟩
        have := hall x hx
        simp [commitRejected, this.1, this.2] at hr
      simp [verifyDependabot, hpr, hbot, clientListCommits, hl, hrej]
  · simp [verifyDependabot, hpr, hbot]

theorem runEntry_gate_passed (remote : Remote) (event : PullRequestEvent) (pr live : PullRequest)
    (config : Config) (s : Cursor) (hpr : event.pullRequest = some pr)
    (hget : remote.getPullRequest s.getPullRequest = .ok live) (hopen : live.state = "open")
    (hauth : AuthorshipPasses remote pr { s with getPullRequest := s.getPullRequest + 1 }) :
    runEntry remote event config s =
      match (checkStage remote event (gateCursor pr s)).value with
      | .returned err =>
        ⟨.returned err, (checkStage remote event (gateCursor pr s)).cursor,
          gateEffects event pr ++ (checkStage remote event (gateCursor pr s)).trace⟩
      | .next =>
        ⟨(remediationStage remote event config
            (checkStage remote event (gateCursor pr s)).cursor).value,
         (remediationStage remote event config
            (checkStage remote event (gateCursor pr s)).cursor).cursor,
         gateEffects event pr ++ ((checkStage remote event (gateCursor pr s)).trace ++
           Effect.log "verified checks" :: (remediationStage remote event config
            (checkStage remote event (gateCursor pr s)).cursor).trace)⟩ := by
  have hv : verifyDependabot remote event { s with getPullRequest := s.getPullRequest + 1 } =
      ⟨none, gateCursor pr s, if pr.userLogin = "dependabot[bot]"
          then [.call (.listCommits event.repoOwner event.repoName pr.number) none] else []⟩ := by
    rw [verifyDependabot_passes remote event pr _ hpr hauth]
    rfl
  simp only [runEntry, checkPRisOpen, hpr, clientGetPullRequest, hget, Act.bind_apply,
    emit_apply, Act.pure_apply, hopen, bne_self_eq_false, Bool.false_eq_true, if_false,
    Option.isSome_none, Bool.not_true, Bool.or_self, Bool.not_false, hv]
  generalize checkStage remote event (gateCursor pr s) = o
  obtain ⟨v, c, t⟩ := o
  cases v <;> simp [gateEffects]

theorem checkStage_first_poll (remote : Remote) (event : PullRequestEvent) (pr : PullRequest)
    (s : Cursor) (k : Nat) (hpr : event.pullRequest = some pr) (hk : k < maxAttempts)
    (hinc : ∀ i, i < k → ∃ checks,
      remote.listCheckRunsForRef (s.listCheckRunsForRef + i) = .ok checks
        ∧ allChecksCompleted checks = false)
    (hdone : ∃ checks, remote.listCheckRunsForRef (s.listCheckRunsForRef + k) = .ok checks
      ∧ allChecksCompleted checks = true) :
    checkStage remote event s =
      ⟨.next, { s with listCheckRunsForRef := s.listCheckRunsForRef + (k + 1) },
        pollRounds (fetchOf event pr) k ++ [fetchOf event pr]⟩ := by
  simp [checkStage, verifyChecks_completes remote event pr s k hpr hk hinc hdone]

theorem checkStage_second_poll (remote : Remote) (event : PullRequestEvent) (pr : PullRequest)
    (s : Cursor) (k : Nat) (hpr : event.pullRequest = some pr) (hk : k < maxAttempts)
    (hfirst : ∀ i, i < maxAttempts → ∃ checks,
      remote.listCheckRunsForRef (s.listCheckRunsForRef + i) = .ok checks
        ∧ allChecksCompleted checks = false)
    (hrebase : remote.createComment s.createComment = none)
    (hinc : ∀ i, i < k → ∃ checks,
      remote.listCheckRunsForRef (s.listCheckRunsForRef + maxAttempts + i) = .ok checks
        ∧ allChecksCompleted checks = false)
    (hdone : ∃ checks,
      remote.listCheckRunsForRef (s.listCheckRunsForRef + maxAttempts + k) = .ok checks
        ∧ allChecksCompleted checks = true) :
    checkStage remote event s =
      ⟨.next, { s with listCheckRunsForRef := s.listCheckRunsForRef + maxAttempts + (k + 1)
                       createComment := s.createComment + 1 },
        pollRounds (fetchOf event pr) maxAttempts ++
          rebaseComment event pr :: .log "rebased PR" ::
            (pollRounds (fetchOf event pr) k ++ [fetchOf event pr])⟩ := by
  have h2 := verifyChecks_completes remote event pr
    { s with listCheckRunsForRef := s.listCheckRunsForRef + maxAttempts
             createComment := s.createComment + 1 } k hpr hk hinc hdone
  simp [checkStage, verifyChecks_exhausted remote event pr s hpr hfirst, rebase, hpr,
    clientCreateComment, hrebase, h2, rebaseComment]

theorem remediationStage_succeeds (remote : Remote) (event : PullRequestEvent) (pr : PullRequest)
    (config : Config) (s : Cursor) (reviews : List PullRequestReview)
    (hpr : event.pullRequest = some pr)
    (hreviews : remote.listReviews s.listReviews = .ok reviews)
    (hcreate : remote.createReview s.createReview = none)
    (hcomment : remote.createComment s.createComment = none) :
    (remediationStage remote event config s).value = .next ∧
    (remediationStage remote event config s).trace =
      remediationEffects event pr config reviews := by
  by_cases happ : ∃ x ∈ reviews, x.state = "APPROVED"
  · have ha : alreadyApproved reviews = true := by simpa [alreadyApproved] using happ
    cases hau : config.autoapprove <;> cases ham : config.automerge <;>
      simp [remediationStage, approve, merge, hpr, hau, ham, clientListReviews,
        clientCreateReview, clientCreateComment, hreviews, hcreate, hcomment, happ, ha,
        remediationEffects, approveEffects, mergeComment]
  · have ha : alreadyApproved reviews = false := by simpa [alreadyApproved] using happ
    cases hau : config.autoapprove <;> cases ham : config.automerge <;>
      simp [remediationStage, approve, merge, hpr, hau, ham, clientListReviews,
        clientCreateReview, clientCreateComment, hreviews, hcreate, hcomment, happ, ha,
        remediationEffects, approveEffects, mergeComment]

/-! ## Counting calls in the traces -/

theorem count_pollRounds_other (p : Effect → Bool) (fetch : Effect) (hf : p fetch = false)
    (hs : p (.sleep interval) = false) (n : Nat) : (pollRounds fetch n).countP p = 0 := by
  induction n with
  | zero => rfl
  | succ n ih => simp [pollRounds, List.countP_cons, hf, hs, ih]

theorem count_gateEffects (event : PullRequestEvent) (pr : PullRequest) :
    (gateEffects event pr).countP Effect.isRebaseComment = 0 ∧
    (gateEffects event pr).countP Effect.isListReviews = 0 ∧
    (gateEffects event pr).countP Effect.isCreateReview = 0 ∧
    (gateEffects event pr).countP Effect.isMergeComment = 0 ∧
    (gateEffects event pr).countP Effect.isCheckRunFetch = 0 := by
  by_cases h : pr.userLogin = "dependabot[bot]" <;>
    simp [gateEffects, h, List.countP_cons, Effect.isRebaseComment, Effect.isListReviews,
      Effect.isCreateReview, Effect.isMergeComment, Effect.isCheckRunFetch]

theorem count_remediationEffects (event : PullRequestEvent) (pr : PullRequest) (config : Config)
    (reviews : List PullRequestReview) :
    (remediationEffects event pr config reviews).countP Effect.isRebaseComment = 0 ∧
    (remediationEffects event pr config reviews).countP Effect.isListReviews =
      (if config.autoapprove then 1 else 0) ∧
    (remediationEffects event pr config reviews).countP Effect.isCreateReview =
      (if config.autoapprove = true ∧ alreadyApproved reviews = false then 1 else 0) ∧
    (remediationEffects event pr config reviews).countP Effect.isMergeComment =
      (if config.automerge then 1 else 0) ∧
    (remediationEffects event pr config reviews).countP Effect.isCheckRunFetch = 0 := by
  cases hau : config.autoapprove <;> cases ham : config.automerge <;>
    cases happ : alreadyApproved reviews <;>
    simp [remediationEffects, approveEffects, mergeComment, hau, ham, happ, List.countP_cons,
      Effect.isRebaseComment, Effect.isListReviews, Effect.isCreateReview,
      Effect.isMergeComment, Effect.isCheckRunFetch]

theorem runEntry_rejected_commits (remote : Remote) (event : PullRequestEvent)
    (pr live : PullRequest) (config : Config) (s : Cursor) (commits : List RepositoryCommit)
    (hpr : event.pullRequest = some pr) (hbot : pr.userLogin = "dependabot[bot]")
    (hget : remote.getPullRequest s.getPullRequest = .ok live) (hopen : live.state = "open")
    (hlist : remote.listCommits s.listCommits = .ok commits)
    (hbad : ∃ c ∈ commits, c.verified = false ∨ c.authorLogin ≠ "dependabot[bot]") :
    runEntry remote event config s =
      ⟨.returned (some .commitsNotVerified),
       { s with getPullRequest := s.getPullRequest + 1, listCommits := s.listCommits + 1 },
       [.log "running action", .sleep 15,
        .call (.getPullRequest event.repoOwner event.repoName pr.number) none,
        .call (.listCommits event.repoOwner event.repoName pr.number) none]⟩ := by
  have hrej : ∃ x ∈ commits, commitRejected x = true := by
    obtain ⟨c, hc, h⟩ := hbad
    refine ⟨c, hc, ?_⟩
    rcases h with h | h <;> simp [commitRejected, h]
  simp [runEntry, checkPRisOpen, hpr, clientGetPullRequest, hget, hopen, verifyDependabot,
    hbot, clientListCommits, hlist, hrej]

theorem runEntry_not_open (remote : Remote) (event : PullRequestEvent)
    (pr live : PullRequest) (config : Config) (s : Cursor)
    (hpr : event.pullRequest = some pr)
    (hget : remote.getPullRequest s.getPullRequest = .ok live) (hstate : live.state ≠ "open") :
    runEntry remote event config s =
      ⟨.returned none, { s with getPullRequest := s.getPullRequest + 1 },
       [.log "running action", .sleep 15,
        .call (.getPullRequest event.repoOwner event.repoName pr.number) none]⟩ := by
  simp [runEntry, checkPRisOpen, hpr, clientGetPullRequest, hget, hstate]

theorem runEntry_no_pull_request (remote : Remote) (event : PullRequestEvent)
    (config : Config) (s : Cursor) (hpr : event.pullRequest = none) :
    runEntry remote event config s =
      ⟨.returned (some .noPullRequest), s, [.log "running action", .sleep 15]⟩ := by
  simp [runEntry, checkPRisOpen, hpr]

theorem run_append_of_error (remote : Remote) (event : PullRequestEvent)
    (before after : List Config) :
    ∀ (s : Cursor) (e : Error), (run remote event before s).value = some e →
      run remote event (before ++ after) s = run remote event before s := by
  induction before with
  | nil => intro s e h; simp [run] at h
  | cons c rest ih =>
    intro s e h
    by_cases hm : c.repository = event.repoName
    · rw [List.cons_append, run_cons_match remote event c _ s hm,
        run_cons_match remote event c rest s hm]
      rw [run_cons_match remote event c rest s hm] at h
      generalize runEntry remote event c s = o at h ⊢
      obtain ⟨v, cur, t⟩ := o
      cases v with
      | returned err => rfl
      | next =>
        simp only at h ⊢
        rw [ih cur e h]
    · rw [List.cons_append, run_skip remote event c _ hm, run_skip remote event c rest hm]
      rw [run_skip remote event c rest hm] at h
      exact ih s e h

theorem loop_incomplete (remote : Remote) (owner repo sha : String) (n : Nat) :
    ∀ (b : Bool) (s : Cursor),
    (∀ i, i < n → ∀ checks, remote.listCheckRunsForRef (s.listCheckRunsForRef + i) = .ok checks →
      allChecksCompleted checks = false) →
    (0 < n → ((verifyChecksLoop remote owner repo sha n b s).value.2.isSome ||
      !(verifyChecksLoop remote owner repo sha n b s).value.1) = true) ∧
    (∃ j, j ≤ n ∧ (verifyChecksLoop remote owner repo sha n b s).cursor =
      { s with listCheckRunsForRef := s.listCheckRunsForRef + j }) ∧
    ∀ x ∈ (verifyChecksLoop remote owner repo sha n b s).trace, x.isPollEffect = true := by
  induction n with
  | zero =>
    intro b s _
    exact ⟨fun h => absurd h (Nat.lt_irrefl 0), ⟨0, Nat.le_refl 0, rfl⟩, by simp [verifyChecksLoop]⟩
  | succ n ih =>
    intro b s h
    cases h0 : remote.listCheckRunsForRef s.listCheckRunsForRef with
    | error e =>
      refine ⟨fun _ => ?_, ⟨1, by omega, ?_⟩, ?_⟩ <;>
        simp [verifyChecksLoop, clientListCheckRunsForRef, h0, Effect.isPollEffect]
    | ok checks =>
      have hc : allChecksCompleted checks = false := h 0 (Nat.succ_pos n) checks (by simpa using h0)
      obtain ⟨hv, ⟨j, hj, hcur⟩, ht⟩ :=
        ih false { s with listCheckRunsForRef := s.listCheckRunsForRef + 1 } (by
          intro i hi checks hok
          exact h (i + 1) (Nat.succ_lt_succ hi) checks
            (by simpa [Nat.add_assoc, Nat.add_comm 1 i] using hok))
      refine ⟨fun _ => ?_, ⟨j + 1, by omega, ?_⟩, ?_⟩
      · cases n with
        | zero => simp [verifyChecksLoop, clientListCheckRunsForRef, h0, hc]
        | succ m =>
          have := hv (Nat.succ_pos m)
          simpa [verifyChecksLoop, clientListCheckRunsForRef, h0, hc] using this
      · simp [verifyChecksLoop, clientListCheckRunsForRef, h0, hc, hcur]
        omega
      · intro x hx
        simp [verifyChecksLoop, clientListCheckRunsForRef, h0, hc] at hx
        rcases hx with rfl | rfl | hx
        · rfl
        · rfl
        · exact ht x hx

theorem count_poll_only (p : Effect → Bool) (hp : ∀ x, x.isPollEffect = true → p x = false)
    (t : List Effect) (ht : ∀ x ∈ t, x.isPollEffect = true) : t.countP p = 0 := by
  rw [List.countP_eq_zero]
  intro x hx
  simp [hp x (ht x hx)]

theorem checkStage_incomplete (remote : Remote) (event : PullRequestEvent) (pr : PullRequest)
    (s : Cursor) (hpr : event.pullRequest = some pr)
    (hchecks : ∀ i, i < 2 * maxAttempts → ∀ checks,
      remote.listCheckRunsForRef (s.listCheckRunsForRef + i) = .ok checks →
        allChecksCompleted checks = false)
    (hrebase : remote.createComment s.createComment = none) :
    (checkStage remote event s).value = .returned (some .checksNotPassing) ∧
    ∃ t1 t2, (checkStage remote event s).trace =
        t1 ++ rebaseComment event pr :: .log "rebased PR" :: t2 ∧
      (∀ x ∈ t1, x.isPollEffect = true) ∧ (∀ x ∈ t2, x.isPollEffect = true) := by
  obtain ⟨hv1, ⟨j, hj, hcur1⟩, ht1⟩ := loop_incomplete remote event.repoOwner event.repoName
    pr.headSHA maxAttempts true s (fun i hi => hchecks i (by omega))
  have h2 := loop_incomplete remote event.repoOwner event.repoName
    pr.headSHA maxAttempts true
    { s with listCheckRunsForRef := s.listCheckRunsForRef + j
             createComment := s.createComment + 1 }
    (fun i hi checks hok => hchecks (j + i) (by omega) checks
      (by simpa [Nat.add_assoc] using hok))
  obtain ⟨hv2, -, ht2⟩ := h2
  have hv1' := hv1 (by decide)
  have hv2' := hv2 (by decide)
  simp only [checkStage, verifyChecks, hpr, Act.bind_apply]
  generalize verifyChecksLoop remote event.repoOwner event.repoName pr.headSHA maxAttempts
    true s = o1 at hv1' hcur1 ht1 ⊢
  obtain ⟨⟨b1, e1⟩, c1, t1⟩ := o1
  simp only at hv1' hcur1 ht1
  subst hcur1
  simp only [hv1', if_true, rebase, hpr, clientCreateComment, hrebase, Act.bind_apply,
    emit_apply, Act.pure_apply]
  generalize verifyChecksLoop remote event.repoOwner event.repoName pr.headSHA maxAttempts
    true _ = o2 at hv2' ht2 ⊢
  obtain ⟨⟨b2, e2⟩, c2, t2⟩ := o2
  simp only at hv2' ht2
  simp only [hv2', if_true, Act.pure_apply]
  exact ⟨trivial, t1, t2, by simp [rebaseComment], ht1, ht2⟩

theorem poll_effect_other (x : Effect) (hx : x.isPollEffect = true) :
    x.isRebaseComment = false ∧ x.isListReviews = false ∧ x.isCreateReview = false ∧
      x.isMergeComment = false := by
  cases x with
  | log m => exact ⟨rfl, rfl, rfl, rfl⟩
  | sleep n => exact ⟨rfl, rfl, rfl, rfl⟩
  | call c e =>
    cases c with
    | listCheckRunsForRef o r f => exact ⟨rfl, rfl, rfl, rfl⟩
    | getPullRequest o r n => simp [Effect.isPollEffect] at hx
    | listCommits o r n => simp [Effect.isPollEffect] at hx
    | listReviews o r n => simp [Effect.isPollEffect] at hx
    | createReview o r n ev => simp [Effect.isPollEffect] at hx
    | createComment o r n b => simp [Effect.isPollEffect] at hx

/-! ## Theorems -/

/-- C10: when no entry of the policy table names the repository of the event,
`run` produces no effect at all (so no remote call, mutating or not) and returns
no error. -/
theorem run_without_matching_entry (remote : Remote) (event : PullRequestEvent)
    (configs : List Config) (s : Cursor)
    (h : ∀ c ∈ configs, c.repository ≠ event.repoName) :
    (run remote event configs s).value = none ∧ (run remote event configs s).trace = [] ∧
      (run remote event configs s).cursor = s := by
  rw [run_no_match remote event configs s h]
  exact ⟨rfl, rfl, rfl⟩

/-- C5: when `ListReviews` returns a list of reviews, `approve` makes no
`CreateReview` call and returns nil if one of them is APPROVED, and otherwise makes
exactly one `CreateReview` call, with the event APPROVE, whose error it returns. -/
theorem approve_review_calls (remote : Remote) (event : PullRequestEvent) (pr : PullRequest)
    (s : Cursor) (reviews : List PullRequestReview)
    (hpr : event.pullRequest = some pr)
    (hlist : remote.listReviews s.listReviews = .ok reviews) :
    ((∃ r ∈ reviews, r.state = "APPROVED") →
      (approve remote event s).value = none ∧
      (approve remote event s).trace =
        [.call (.listReviews event.repoOwner event.repoName pr.number) none] ∧
      (approve remote event s).trace.countP Effect.isCreateReview = 0) ∧
    ((∀ r ∈ reviews, r.state ≠ "APPROVED") →
      (approve remote event s).value = remote.createReview s.createReview ∧
      (approve remote event s).trace =
        [.call (.listReviews event.repoOwner event.repoName pr.number) none,
         .call (.createReview event.repoOwner event.repoName pr.number "APPROVE")
           (remote.createReview s.createReview)] ∧
      (approve remote event s).trace.countP Effect.isCreateReview = 1) := by
  constructor
  · intro h
    simp [approve, hpr, clientListReviews, hlist, h, Effect.isCreateReview]
  · intro h
    have hne : ¬ ∃ x ∈ reviews, x.state = "APPROVED" := by simpa using h
    simp [approve, hpr, clientListReviews, clientCreateReview, hlist, hne,
      Effect.isCreateReview, List.countP_cons]

/-- C3: over error-free snapshots, `verifyChecks` returns (true, nil) right after
the first snapshot `k` (1 ≤ k ≤ 12) in which every check run has the status
"completed" (an empty snapshot counts), after exactly `k` fetches and `k - 1` sleeps
of 10s; and when each of the first 12 snapshots holds a check run whose status is
not "completed" it returns (false, nil) after exactly 12 fetches and 12 sleeps
(120s), the 13th snapshot never being fetched. -/
theorem verifyChecks_poll (remote : Remote) (event : PullRequestEvent) (pr : PullRequest)
    (s : Cursor) (snaps : Nat → List CheckRun)
    (hpr : event.pullRequest = some pr)
    (hsnaps : ∀ i, i < maxAttempts →
      remote.listCheckRunsForRef (s.listCheckRunsForRef + i) = .ok (snaps i)) :
    (∀ k, 1 ≤ k → k ≤ maxAttempts →
      (∀ i, i + 1 < k → ∃ c ∈ snaps i, c.status ≠ "completed") →
      (∀ c ∈ snaps (k - 1), c.status = "completed") →
        (verifyChecks remote event s).value = (true, none) ∧
        (verifyChecks remote event s).trace =
          pollRounds (fetchOf event pr) (k - 1) ++ [fetchOf event pr] ∧
        (verifyChecks remote event s).trace.countP Effect.isCheckRunFetch = k ∧
        (verifyChecks remote event s).trace.countP Effect.isSleep = k - 1 ∧
        sleptSeconds (verifyChecks remote event s).trace = 10 * (k - 1) ∧
        (verifyChecks remote event s).cursor =
          { s with listCheckRunsForRef := s.listCheckRunsForRef + k }) ∧
    ((∀ i, i < maxAttempts → ∃ c ∈ snaps i, c.status ≠ "completed") →
        (verifyChecks remote event s).value = (false, none) ∧
        (verifyChecks remote event s).trace = pollRounds (fetchOf event pr) 12 ∧
        (verifyChecks remote event s).trace.countP Effect.isCheckRunFetch = 12 ∧
        (verifyChecks remote event s).trace.countP Effect.isSleep = 12 ∧
        sleptSeconds (verifyChecks remote event s).trace = 120 ∧
        (verifyChecks remote event s).cursor =
          { s with listCheckRunsForRef := s.listCheckRunsForRef + 12 }) := by
  have hfetch : (fetchOf event pr).isCheckRunFetch = true := rfl
  have hnosleep : (fetchOf event pr).isSleep = false := rfl
  constructor
  · intro k hk1 hk12 hinc hdone
    obtain ⟨j, rfl⟩ : ∃ j, k = j + 1 := ⟨k - 1, by omega⟩
    simp only [Nat.add_sub_cancel] at hdone ⊢
    rw [verifyChecks_completes remote event pr s j hpr (by omega)
      (fun i hi => ⟨snaps i, hsnaps i (by omega),
        (allChecksCompleted_eq_false _).2 (hinc i (by omega))⟩)
      ⟨snaps j, hsnaps j (by omega), (allChecksCompleted_eq_true _).2 hdone⟩]
    refine ⟨rfl, rfl, ?_, ?_, ?_, rfl⟩
    · rw [List.countP_append, count_fetch_pollRounds _ hfetch]
      simp [List.countP_cons, hfetch]
    · rw [List.countP_append, count_sleep_pollRounds _ hnosleep]
      simp [List.countP_cons, hnosleep]
    · simp [fetchOf, sleptSeconds_append, sleptSeconds_pollRounds, sleptSeconds, interval]
  · intro hinc
    rw [verifyChecks_exhausted remote event pr s hpr
      (fun i hi => ⟨snaps i, hsnaps i hi, (allChecksCompleted_eq_false _).2 (hinc i hi)⟩)]
    refine ⟨rfl, rfl, ?_, ?_, ?_, rfl⟩
    · exact count_fetch_pollRounds _ hfetch 12
    · exact count_sleep_pollRounds _ hnosleep 12
    · exact sleptSeconds_pollRounds _ 12

/-- Witness of C10: the table names only repository "y", the event is for "x". -/
theorem run_without_matching_entry_witness :
    (run healthyRemote sampleEvent [⟨"y", true, true⟩] Cursor.start).value = none ∧
    (run healthyRemote sampleEvent [⟨"y", true, true⟩] Cursor.start).trace = [] ∧
    (run healthyRemote sampleEvent [⟨"y", true, true⟩] Cursor.start).cursor = Cursor.start :=
  run_without_matching_entry healthyRemote sampleEvent [⟨"y", true, true⟩] Cursor.start
    (by decide)

/-- Witness of C5: with an approved review listed, `approve` only lists the reviews. -/
theorem approve_review_calls_witness :
    (approve approvedRemote sampleEvent Cursor.start).trace.countP Effect.isCreateReview = 0 :=
  ((approve_review_calls approvedRemote sampleEvent samplePullRequest Cursor.start
    [⟨"APPROVED"⟩] rfl rfl).1 ⟨⟨"APPROVED"⟩, by simp, rfl⟩).2.2

/-- Witness of C3, on three polls.  An empty snapshot ends the poll at the first
fetch.  On the server whose check run completes at the 14th fetch, a poll from the
13th fetch ends at its second attempt after one sleep, and a poll from the first
fetch gives up after 12 fetches and 120s. -/
theorem verifyChecks_poll_witness :
    ((verifyChecks noChecksRemote sampleEvent Cursor.start).value = (true, none) ∧
      (verifyChecks noChecksRemote sampleEvent Cursor.start).trace.countP
        Effect.isCheckRunFetch = 1) ∧
    ((verifyChecks slowRemote sampleEvent ⟨0, 0, 12, 0, 0, 0⟩).value = (true, none) ∧
      (verifyChecks slowRemote sampleEvent ⟨0, 0, 12, 0, 0, 0⟩).trace.countP
        Effect.isCheckRunFetch = 2 ∧
      (verifyChecks slowRemote sampleEvent ⟨0, 0, 12, 0, 0, 0⟩).trace.countP
        Effect.isSleep = 1) ∧
    ((verifyChecks slowRemote sampleEvent Cursor.start).value = (false, none) ∧
      (verifyChecks slowRemote sampleEvent Cursor.start).trace.countP
        Effect.isCheckRunFetch = 12 ∧
      sleptSeconds (verifyChecks slowRemote sampleEvent Cursor.start).trace = 120) :=
  have h1 := (verifyChecks_poll noChecksRemote sampleEvent samplePullRequest Cursor.start
    (fun _ => []) rfl (fun _ _ => rfl)).1 1 (by decide) (by decide)
    (fun i hi => absurd hi (by omega)) (by simp)
  have h2 := (verifyChecks_poll slowRemote sampleEvent samplePullRequest ⟨0, 0, 12, 0, 0, 0⟩
    (fun i => if 12 + i < 13 then [⟨"in_progress"⟩] else [⟨"completed"⟩]) rfl
    (fun i _ => by simp only [slowRemote]; split <;> rfl)).1 2 (by decide) (by decide)
    (fun i hi => by
      have h0 : i = 0 := by omega
      subst h0
      exact ⟨⟨"in_progress"⟩, by simp, by decide⟩)
    (by simp)
  have h3 := (verifyChecks_poll slowRemote sampleEvent samplePullRequest Cursor.start
    (fun _ => [⟨"in_progress"⟩]) rfl
    (fun i hi => by
      have h13 : i < 13 := Nat.lt_trans hi (by decide)
      simp [slowRemote, Cursor.start, h13])).2
    (fun _ _ => ⟨⟨"in_progress"⟩, by simp, by decide⟩)
  ⟨⟨h1.1, h1.2.2.1⟩, ⟨h2.1, h2.2.2.1, h2.2.2.2.1⟩, ⟨h3.1, h3.2.2.1, h3.2.2.2.2.1⟩⟩

/-- C1 (amended): when a remote call other than `ListCheckRunsForRef` returns an
error, `run` produces no further effect and returns that error.  A failed
`ListCheckRunsForRef` is not propagated.  In the first poll of an entry (the poll
opened by the log line "verified dependabot") the next effect is the rebase comment:
when the comment is posted, the log line "rebased PR" and the first fetch of the
second poll follow; when the comment fails, nothing follows and `run` returns the
error of the comment.  In the second poll (opened by the log line "rebased PR")
nothing follows the failed fetch and `run` returns "checks are not passing". -/
theorem run_after_failed_call (remote : Remote) (event : PullRequestEvent)
    (configs : List Config) (s : Cursor) (front back : List Effect) (c : Call) (e : Error)
    (h : (run remote event configs s).trace = front ++ Effect.call c (some e) :: back) :
    (c.isListCheckRuns = false →
      back = [] ∧ (run remote event configs s).value = some e) ∧
    (c.isListCheckRuns = true →
      (lastMarker none front = some (.log "verified dependabot") ∧
        ∃ owner repo number r tail,
          back = .call (.createComment owner repo number "@dependabot rebase") r :: tail ∧
          (r = none → ∃ o p f e2 tail2,
            tail = .log "rebased PR" :: .call (.listCheckRunsForRef o p f) e2 :: tail2) ∧
          (∀ e1, r = some e1 →
            tail = [] ∧ (run remote event configs s).value = some e1)) ∨
      (lastMarker none front = some (.log "rebased PR") ∧ back = [] ∧
        (run remote event configs s).value = some .checksNotPassing)) := by
  have hs := Stops.sound _ _ front back c e h none (run_stops remote event configs s none)
  refine ⟨fun hc => ?_, fun hc => ?_⟩
  · obtain ⟨hb, hv⟩ := hs.1 hc
    exact ⟨hb, by simpa using hv⟩
  · rcases hs.2 hc with ⟨hm, owner, repo, number, r, tail, hback, hposted, hfailed⟩ |
      ⟨hm, hb, hv⟩
    · refine Or.inl ⟨hm, owner, repo, number, r, tail, hback, hposted, ?_⟩
      intro e1 hr
      obtain ⟨ht, hv⟩ := hfailed e1 hr
      exact ⟨ht, by simpa using hv⟩
    · exact Or.inr ⟨hm, hb, by simpa using hv⟩

/-- Witness of C1, on three runs of one entry with both flags set.  `GetPullRequest`
fails with 503: nothing follows and `run` returns the 503.  The first fetch of the
first poll fails with 502: the rebase comment, "rebased PR" and the second poll
follow.  The first fetch of the second poll fails with 502 after a first poll of 12
incomplete snapshots: nothing follows and `run` returns "checks are not passing". -/
theorem run_after_failed_call_witness :
    (([] : List Effect) = [] ∧
      (run downRemote sampleEvent [⟨"x", true, true⟩] Cursor.start).value =
        some (.remote "503")) ∧
    ((lastMarker none [.log "running action", .sleep 15,
          .call (.getPullRequest "octo" "x" 7) none, .call (.listCommits "octo" "x" 7) none,
          .log "verified dependabot"] = some (.log "verified dependabot") ∧
        ∃ owner repo number r tail,
          [Effect.call (.createComment "octo" "x" 7 "@dependabot rebase") none,
            .log "rebased PR", .call (.listCheckRunsForRef "octo" "x" "abc123") none,
            .log "verified checks", .call (.listReviews "octo" "x" 7) none,
            .call (.createReview "octo" "x" 7 "APPROVE") none, .log "approved PR",
            .call (.createComment "octo" "x" 7 "@dependabot merge") none, .log "merged PR"]
            = .call (.createComment owner repo number "@dependabot rebase") r :: tail ∧
          (r = none → ∃ o p f e2 tail2,
            tail = .log "rebased PR" :: .call (.listCheckRunsForRef o p f) e2 :: tail2) ∧
          (∀ e1, r = some e1 → tail = [] ∧
            (run flakyChecksRemote sampleEvent [⟨"x", true, true⟩] Cursor.start).value =
              some e1)) ∨
      (lastMarker none [.log "running action", .sleep 15,
          .call (.getPullRequest "octo" "x" 7) none, .call (.listCommits "octo" "x" 7) none,
          .log "verified dependabot"] = some (.log "rebased PR") ∧
        ([.call (.createComment "octo" "x" 7 "@dependabot rebase") none,
            .log "rebased PR", .call (.listCheckRunsForRef "octo" "x" "abc123") none,
            .log "verified checks", .call (.listReviews "octo" "x" 7) none,
            .call (.createReview "octo" "x" 7 "APPROVE") none, .log "approved PR",
            .call (.createComment "octo" "x" 7 "@dependabot merge") none, .log "merged PR"]
            : List Effect) = [] ∧
        (run flakyChecksRemote sampleEvent [⟨"x", true, true⟩] Cursor.start).value =
          some .checksNotPassing)) ∧
    (([] : List Effect) = [] ∧
      (run brokenSecondPollRemote sampleEvent [⟨"x", true, true⟩] Cursor.start).value =
        some .checksNotPassing) :=
  have h1 := (run_after_failed_call downRemote sampleEvent [⟨"x", true, true⟩] Cursor.start
    [.log "running action", .sleep 15] [] (.getPullRequest "octo" "x" 7) (.remote "503")
    (by decide)).1 rfl
  have h2 := (run_after_failed_call flakyChecksRemote sampleEvent [⟨"x", true, true⟩]
    Cursor.start
    [.log "running action", .sleep 15,
      .call (.getPullRequest "octo" "x" 7) none, .call (.listCommits "octo" "x" 7) none,
      .log "verified dependabot"]
    [.call (.createComment "octo" "x" 7 "@dependabot rebase") none,
      .log "rebased PR", .call (.listCheckRunsForRef "octo" "x" "abc123") none,
      .log "verified checks", .call (.listReviews "octo" "x" 7) none,
      .call (.createReview "octo" "x" 7 "APPROVE") none, .log "approved PR",
      .call (.createComment "octo" "x" 7 "@dependabot merge") none, .log "merged PR"]
    (.listCheckRunsForRef "octo" "x" "abc123") (.remote "502") (by decide)).2 rfl
  have h3 := (run_after_failed_call brokenSecondPollRemote sampleEvent [⟨"x", true, true⟩]
    Cursor.start
    ([.log "running action", .sleep 15,
      .call (.getPullRequest "octo" "x" 7) none, .call (.listCommits "octo" "x" 7) none,
      .log "verified dependabot"] ++
      pollRounds (.call (.listCheckRunsForRef "octo" "x" "abc123") none) 12 ++
      [.call (.createComment "octo" "x" 7 "@dependabot rebase") none, .log "rebased PR"])
    [] (.listCheckRunsForRef "octo" "x" "abc123") (.remote "502") (by decide)).2 rfl
  ⟨h1, h2, (h3.resolve_left (fun h => absurd h.1 (by decide))).2⟩

/-- Counterexample to C1: the first `ListCheckRunsForRef` fails with 502, yet `run`
goes on to post the rebase comment, polls again, approves, posts the merge comment
and returns nil. -/
theorem run_continues_after_failed_check_fetch :
    (run flakyChecksRemote sampleEvent [⟨"x", true, true⟩] Cursor.start).value = none ∧
    (run flakyChecksRemote sampleEvent [⟨"x", true, true⟩] Cursor.start).trace =
      [.log "running action", .sleep 15,
       .call (.getPullRequest "octo" "x" 7) none,
       .call (.listCommits "octo" "x" 7) none,
       .log "verified dependabot",
       .call (.listCheckRunsForRef "octo" "x" "abc123") (some (.remote "502")),
       .call (.createComment "octo" "x" 7 "@dependabot rebase") none,
       .log "rebased PR",
       .call (.listCheckRunsForRef "octo" "x" "abc123") none,
       .log "verified checks",
       .call (.listReviews "octo" "x" 7) none,
       .call (.createReview "octo" "x" 7 "APPROVE") none,
       .log "approved PR",
       .call (.createComment "octo" "x" 7 "@dependabot merge") none,
       .log "merged PR"] := by
  decide

/-- C2: with a matching entry, the pull request read as open and authored by
dependabot, and a commit list holding a commit that is unverified or not by
dependabot, `run` returns an error after the `GetPullRequest` and `ListCommits`
calls alone: no rebase comment, no review, no merge comment, no check-run fetch. -/
theorem run_rejects_foreign_commit (remote : Remote) (event : PullRequestEvent)
    (pr live : PullRequest) (configs : List Config) (commits : List RepositoryCommit)
    (hmatch : ∃ c ∈ configs, c.repository = event.repoName)
    (hpr : event.pullRequest = some pr) (hbot : pr.userLogin = "dependabot[bot]")
    (hget : remote.getPullRequest 0 = .ok live) (hopen : live.state = "open")
    (hlist : remote.listCommits 0 = .ok commits)
    (hbad : ∃ c ∈ commits, c.verified = false ∨ c.authorLogin ≠ "dependabot[bot]") :
    (run remote event configs Cursor.start).value = some .commitsNotVerified ∧
    (run remote event configs Cursor.start).trace =
      [.log "running action", .sleep 15,
       .call (.getPullRequest event.repoOwner event.repoName pr.number) none,
       .call (.listCommits event.repoOwner event.repoName pr.number) none] ∧
    (run remote event configs Cursor.start).trace.countP Effect.isRebaseComment = 0 ∧
    (run remote event configs Cursor.start).trace.countP Effect.isCreateReview = 0 ∧
    (run remote event configs Cursor.start).trace.countP Effect.isMergeComment = 0 ∧
    (run remote event configs Cursor.start).trace.countP Effect.isCheckRunFetch = 0 := by
  obtain ⟨config, rest, hm, hrun⟩ := run_first_match remote event configs hmatch
  rw [hrun, run_cons_match remote event config rest Cursor.start hm,
    runEntry_rejected_commits remote event pr live config Cursor.start commits hpr hbot hget
      hopen hlist hbad]
  simp [List.countP_cons, Effect.isRebaseComment, Effect.isCreateReview,
    Effect.isMergeComment, Effect.isCheckRunFetch]

/-- Witness of C2: the one commit of the pull request is unverified. -/
theorem run_rejects_foreign_commit_witness :
    (run unsignedRemote sampleEvent [⟨"x", true, true⟩] Cursor.start).value =
      some .commitsNotVerified :=
  (run_rejects_foreign_commit unsignedRemote sampleEvent samplePullRequest samplePullRequest
    [⟨"x", true, true⟩] [⟨false, "dependabot[bot]"⟩] ⟨_, List.mem_singleton_self _, rfl⟩
    rfl rfl rfl rfl rfl ⟨_, List.mem_singleton_self _, Or.inl rfl⟩).1

/-- C4: when the live `GetPullRequest` read succeeds with a state other than "open",
`run` posts no rebase comment, creates no review and posts no merge comment,
whatever the policy table (several matching entries included); it makes no remote
call other than that read.  The run may start from any cursor `s`, the read being
the next `GetPullRequest` response; the run of an event starts from `Cursor.start`. -/
theorem run_pull_request_not_open (remote : Remote) (event : PullRequestEvent)
    (configs : List Config) (s : Cursor) (live : PullRequest)
    (hget : remote.getPullRequest s.getPullRequest = .ok live) (hstate : live.state ≠ "open") :
    (run remote event configs s).trace.countP Effect.isRebaseComment = 0 ∧
    (run remote event configs s).trace.countP Effect.isCreateReview = 0 ∧
    (run remote event configs s).trace.countP Effect.isMergeComment = 0 ∧
    (run remote event configs s).trace.countP Effect.isRemoteCall ≤ 1 := by
  by_cases hmatch : ∃ c ∈ configs, c.repository = event.repoName
  · obtain ⟨config, rest, hm, hrun⟩ := run_first_match remote event configs hmatch
    rw [hrun, run_cons_match remote event config rest s hm]
    cases hpr : event.pullRequest with
    | none =>
      rw [runEntry_no_pull_request remote event config s hpr]
      simp [List.countP_cons, Effect.isRebaseComment, Effect.isCreateReview,
        Effect.isMergeComment, Effect.isRemoteCall]
    | some pr =>
      rw [runEntry_not_open remote event pr live config s hpr hget hstate]
      simp [List.countP_cons, Effect.isRebaseComment, Effect.isCreateReview,
        Effect.isMergeComment, Effect.isRemoteCall]
  · rw [run_no_match remote event configs s (by
      intro c hc h; exact hmatch ⟨c, hc, h⟩)]
    simp

/-- Witness of C4: the pull request is closed and two entries match. -/
theorem run_pull_request_not_open_witness :
    (run closedRemote sampleEvent [⟨"x", true, true⟩, ⟨"x", true, true⟩]
      Cursor.start).trace.countP Effect.isMergeComment = 0 :=
  (run_pull_request_not_open closedRemote sampleEvent [⟨"x", true, true⟩, ⟨"x", true, true⟩]
    Cursor.start { samplePullRequest with state := "closed" } rfl (by decide)).2.2.1

/-- C6 (amended): with exactly one matching entry, the pull request open, authorship
verified, the first check-run snapshot all completed and every remote call
succeeding, `run` returns nil, posts no rebase comment, runs approve if and only if
`autoapprove` is set and then posts exactly one merge comment if and only if
`automerge` is set.  Approve creates exactly one review when no listed review is
APPROVED and none when one is; so with autoapprove=true, automerge=false there is
one `CreateReview` call or none, and no merge comment. -/
theorem run_checks_complete_at_once (remote : Remote) (event : PullRequestEvent)
    (pr live : PullRequest) (config : Config) (configs : List Config)
    (reviews : List PullRequestReview)
    (hone : configs.filter (fun c => c.repository == event.repoName) = [config])
    (hpr : event.pullRequest = some pr)
    (hget : remote.getPullRequest 0 = .ok live) (hopen : live.state = "open")
    (hauth : AuthorshipPasses remote pr Cursor.start)
    (hchecks : ∃ checks, remote.listCheckRunsForRef 0 = .ok checks ∧
      allChecksCompleted checks = true)
    (hreviews : remote.listReviews 0 = .ok reviews)
    (hcreate : remote.createReview 0 = none)
    (hcomment : remote.createComment 0 = none) :
    (run remote event configs Cursor.start).value = none ∧
    (run remote event configs Cursor.start).trace =
      gateEffects event pr ++ fetchOf event pr :: .log "verified checks" ::
        remediationEffects event pr config reviews ∧
    (run remote event configs Cursor.start).trace.countP Effect.isRebaseComment = 0 ∧
    (run remote event configs Cursor.start).trace.countP Effect.isListReviews =
      (if config.autoapprove then 1 else 0) ∧
    (run remote event configs Cursor.start).trace.countP Effect.isCreateReview =
      (if config.autoapprove = true ∧ alreadyApproved reviews = false then 1 else 0) ∧
    (run remote event configs Cursor.start).trace.countP Effect.isMergeComment =
      (if config.automerge then 1 else 0) := by
  obtain ⟨hv, ht⟩ := run_single remote event configs config Cursor.start hone
  have hstage := checkStage_first_poll remote event pr (gateCursor pr Cursor.start) 0 hpr
    (by decide) (fun i hi => absurd hi (Nat.not_lt_zero i)) hchecks
  obtain ⟨hrv, hrt⟩ := remediationStage_succeeds remote event pr config
    { gateCursor pr Cursor.start with listCheckRunsForRef := 0 + (0 + 1) } reviews hpr
    hreviews hcreate hcomment
  have hentry := runEntry_gate_passed remote event pr live config Cursor.start hpr hget hopen
    hauth
  rw [hstage] at hentry
  simp only at hentry
  have hcur : (gateCursor pr Cursor.start).listCheckRunsForRef = 0 := rfl
  rw [hcur] at hentry
  rw [hentry] at hv ht
  simp only [hrv, hrt] at hv ht
  obtain ⟨g1, g2, g3, g4, -⟩ := count_gateEffects event pr
  obtain ⟨r1, r2, r3, r4, -⟩ := count_remediationEffects event pr config reviews
  refine ⟨hv, ?_, ?_, ?_, ?_, ?_⟩
  · rw [ht]; simp [pollRounds]
  all_goals
    rw [ht]
    simp [pollRounds, List.countP_append, List.countP_cons, g1, g2, g3, g4, r1, r2, r3, r4,
      fetchOf, Effect.isRebaseComment, Effect.isListReviews, Effect.isCreateReview,
      Effect.isMergeComment]

/-- Witness of C6: on the healthy server with autoapprove=true, automerge=false the
run creates one review and posts no merge comment. -/
theorem run_checks_complete_at_once_witness :
    (run healthyRemote sampleEvent [⟨"y", false, false⟩, ⟨"x", true, false⟩]
      Cursor.start).value = none ∧
    (run healthyRemote sampleEvent [⟨"y", false, false⟩, ⟨"x", true, false⟩]
      Cursor.start).trace.countP Effect.isCreateReview = 1 ∧
    (run healthyRemote sampleEvent [⟨"y", false, false⟩, ⟨"x", true, false⟩]
      Cursor.start).trace.countP Effect.isMergeComment = 0 :=
  have h := run_checks_complete_at_once healthyRemote sampleEvent samplePullRequest
    samplePullRequest ⟨"x", true, false⟩ [⟨"y", false, false⟩, ⟨"x", true, false⟩] []
    (by decide) rfl rfl rfl (Or.inr ⟨[⟨true, "dependabot[bot]"⟩], rfl, by simp⟩)
    ⟨[⟨"completed"⟩], rfl, by decide⟩ rfl rfl rfl
  ⟨h.1, h.2.2.2.2.1, h.2.2.2.2.2⟩

/-- Counterexample to C6: autoapprove=true, automerge=false, the pull request open,
its checks completed at the first poll and every call succeeding, but a review is
already APPROVED: `run` returns nil and makes no `CreateReview` call, not one. -/
theorem run_creates_no_review_when_approved :
    (run approvedRemote sampleEvent [⟨"x", true, false⟩] Cursor.start).value = none ∧
    (run approvedRemote sampleEvent [⟨"x", true, false⟩] Cursor.start).trace =
      [.log "running action", .sleep 15,
       .call (.getPullRequest "octo" "x" 7) none,
       .call (.listCommits "octo" "x" 7) none,
       .log "verified dependabot",
       .call (.listCheckRunsForRef "octo" "x" "abc123") none,
       .log "verified checks",
       .call (.listReviews "octo" "x" 7) none,
       .log "approved PR"] ∧
    (run approvedRemote sampleEvent [⟨"x", true, false⟩]
      Cursor.start).trace.countP Effect.isCreateReview = 0 := by
  decide

/-- C7: with a matching entry, the pull request open and authorship verified, when
no snapshot of the first 12-attempt poll is all completed, the rebase comment is
posted, and no snapshot of the second 12-attempt poll is all completed either,
`run` returns the error "checks are not passing", has posted exactly one rebase
comment, and makes no `ListReviews` call, no `CreateReview` call and no merge
comment, whatever the flags of the entry. -/
theorem run_checks_never_complete (remote : Remote) (event : PullRequestEvent)
    (pr live : PullRequest) (configs : List Config)
    (hmatch : ∃ c ∈ configs, c.repository = event.repoName)
    (hpr : event.pullRequest = some pr)
    (hget : remote.getPullRequest 0 = .ok live) (hopen : live.state = "open")
    (hauth : AuthorshipPasses remote pr Cursor.start)
    (hchecks : ∀ i, i < 2 * maxAttempts → ∀ checks,
      remote.listCheckRunsForRef i = .ok checks → allChecksCompleted checks = false)
    (hrebase : remote.createComment 0 = none) :
    (run remote event configs Cursor.start).value = some .checksNotPassing ∧
    (run remote event configs Cursor.start).trace.countP Effect.isRebaseComment = 1 ∧
    (run remote event configs Cursor.start).trace.countP Effect.isListReviews = 0 ∧
    (run remote event configs Cursor.start).trace.countP Effect.isCreateReview = 0 ∧
    (run remote event configs Cursor.start).trace.countP Effect.isMergeComment = 0 := by
  obtain ⟨config, rest, hm, hrun⟩ := run_first_match remote event configs hmatch
  obtain ⟨hv, t1, t2, ht, ht1, ht2⟩ := checkStage_incomplete remote event pr
    (gateCursor pr Cursor.start) hpr
    (fun i hi checks hok => hchecks i hi checks (by
      have hcur : (gateCursor pr Cursor.start).listCheckRunsForRef = 0 := rfl
      simpa [hcur] using hok))
    hrebase
  have hentry := runEntry_gate_passed remote event pr live config Cursor.start hpr hget hopen
    hauth
  rw [hv] at hentry
  simp only at hentry
  rw [hrun, run_cons_match remote event config rest Cursor.start hm, hentry]
  simp only [ht]
  obtain ⟨g1, g2, g3, g4, -⟩ := count_gateEffects event pr
  have p1 := poll_effect_other
  refine ⟨trivial, ?_, ?_, ?_, ?_⟩
  · simp [List.countP_append, List.countP_cons, g1, count_poll_only _ (fun x hx => (p1 x hx).1) t1 ht1,
      count_poll_only _ (fun x hx => (p1 x hx).1) t2 ht2, rebaseComment, Effect.isRebaseComment]
  · simp [List.countP_append, List.countP_cons, g2, count_poll_only _ (fun x hx => (p1 x hx).2.1) t1 ht1,
      count_poll_only _ (fun x hx => (p1 x hx).2.1) t2 ht2, rebaseComment, Effect.isListReviews]
  · simp [List.countP_append, List.countP_cons, g3, count_poll_only _ (fun x hx => (p1 x hx).2.2.1) t1 ht1,
      count_poll_only _ (fun x hx => (p1 x hx).2.2.1) t2 ht2, rebaseComment, Effect.isCreateReview]
  · simp [List.countP_append, List.countP_cons, g4, count_poll_only _ (fun x hx => (p1 x hx).2.2.2) t1 ht1,
      count_poll_only _ (fun x hx => (p1 x hx).2.2.2) t2 ht2, rebaseComment, Effect.isMergeComment]

/-- Witness of C7: the check run stays in progress; the entry asks for approve and
merge. -/
theorem run_checks_never_complete_witness :
    (run pendingRemote sampleEvent [⟨"x", true, true⟩] Cursor.start).value =
      some .checksNotPassing ∧
    (run pendingRemote sampleEvent [⟨"x", true, true⟩]
      Cursor.start).trace.countP Effect.isRebaseComment = 1 :=
  have h := run_checks_never_complete pendingRemote sampleEvent samplePullRequest
    samplePullRequest [⟨"x", true, true⟩] ⟨_, List.mem_singleton_self _, rfl⟩ rfl rfl rfl
    (Or.inr ⟨[⟨true, "dependabot[bot]"⟩], rfl, by simp⟩)
    (fun _ _ checks hok => by
      have : checks = [⟨"in_progress"⟩] := by
        simpa [pendingRemote] using (Except.ok.inj hok).symm
      subst this; decide)
    rfl
  ⟨h.1, h.2.1⟩

/-- C8: with exactly one matching entry, the pull request open and authorship
verified, when the first poll uses its 12 attempts without an all-completed
snapshot and the second poll sees one at its attempt `k` (1 ≤ k ≤ 12), every remote
call succeeding, `run` returns nil; its effects are the first poll of 12 fetches,
one rebase comment, the second poll of `k` fetches, then approve and merge as the
flags of the entry say. -/
theorem run_checks_complete_after_rebase (remote : Remote) (event : PullRequestEvent)
    (pr live : PullRequest) (config : Config) (configs : List Config)
    (reviews : List PullRequestReview) (k : Nat)
    (hone : configs.filter (fun c => c.repository == event.repoName) = [config])
    (hpr : event.pullRequest = some pr)
    (hget : remote.getPullRequest 0 = .ok live) (hopen : live.state = "open")
    (hauth : AuthorshipPasses remote pr Cursor.start)
    (hfirst : ∀ i, i < maxAttempts → ∃ checks,
      remote.listCheckRunsForRef i = .ok checks ∧ allChecksCompleted checks = false)
    (hrebase : remote.createComment 0 = none)
    (hk1 : 1 ≤ k) (hk : k ≤ maxAttempts)
    (hsecond : ∀ i, i + 1 < k → ∃ checks,
      remote.listCheckRunsForRef (maxAttempts + i) = .ok checks ∧
        allChecksCompleted checks = false)
    (hdone : ∃ checks, remote.listCheckRunsForRef (maxAttempts + (k - 1)) = .ok checks ∧
      allChecksCompleted checks = true)
    (hreviews : remote.listReviews 0 = .ok reviews)
    (hcreate : remote.createReview 0 = none)
    (hmerge : remote.createComment 1 = none) :
    (run remote event configs Cursor.start).value = none ∧
    (run remote event configs Cursor.start).trace =
      gateEffects event pr ++ (pollRounds (fetchOf event pr) maxAttempts ++
        rebaseComment event pr :: .log "rebased PR" ::
          (pollRounds (fetchOf event pr) (k - 1) ++
            fetchOf event pr :: .log "verified checks" ::
              remediationEffects event pr config reviews)) ∧
    (run remote event configs Cursor.start).trace.countP Effect.isRebaseComment = 1 ∧
    (run remote event configs Cursor.start).trace.countP Effect.isCheckRunFetch =
      maxAttempts + k ∧
    (run remote event configs Cursor.start).trace.countP Effect.isListReviews =
      (if config.autoapprove then 1 else 0) ∧
    (run remote event configs Cursor.start).trace.countP Effect.isCreateReview =
      (if config.autoapprove = true ∧ alreadyApproved reviews = false then 1 else 0) ∧
    (run remote event configs Cursor.start).trace.countP Effect.isMergeComment =
      (if config.automerge then 1 else 0) := by
  obtain ⟨j, rfl⟩ : ∃ j, k = j + 1 := ⟨k - 1, by omega⟩
  simp only [Nat.add_sub_cancel] at hdone ⊢
  obtain ⟨hv, ht⟩ := run_single remote event configs config Cursor.start hone
  have hcur : (gateCursor pr Cursor.start).listCheckRunsForRef = 0 := rfl
  have hstage := checkStage_second_poll remote event pr (gateCursor pr Cursor.start) j hpr
    (by omega)
    (fun i hi => by rw [hcur, Nat.zero_add]; exact hfirst i hi)
    hrebase
    (fun i hi => by rw [hcur, Nat.zero_add]; exact hsecond i (by omega))
    (by rw [hcur, Nat.zero_add]; exact hdone)
  obtain ⟨hrv, hrt⟩ := remediationStage_succeeds remote event pr config
    { gateCursor pr Cursor.start with
      listCheckRunsForRef :=
        (gateCursor pr Cursor.start).listCheckRunsForRef + maxAttempts + (j + 1)
      createComment := (gateCursor pr Cursor.start).createComment + 1 }
    reviews hpr hreviews hcreate hmerge
  have hentry := runEntry_gate_passed remote event pr live config Cursor.start hpr hget hopen
    hauth
  rw [hstage] at hentry
  simp only at hentry
  rw [hentry] at hv ht
  simp only [hrv, hrt] at hv ht
  obtain ⟨g1, g2, g3, g4, g5⟩ := count_gateEffects event pr
  obtain ⟨r1, r2, r3, r4, r5⟩ := count_remediationEffects event pr config reviews
  have hf : (fetchOf event pr).isCheckRunFetch = true := rfl
  have hreb : (rebaseComment event pr).isRebaseComment = true := by
    simp [rebaseComment, Effect.isRebaseComment]
  refine ⟨hv, ?_, ?_, ?_, ?_, ?_, ?_⟩
  · rw [ht]; simp
  · rw [ht]
    have hp := count_pollRounds_other Effect.isRebaseComment (fetchOf event pr) rfl rfl
    have h1 : (fetchOf event pr).isRebaseComment = false := rfl
    simp only [List.countP_append, List.countP_cons, g1, r1, hp, h1, hreb]
    simp [Effect.isRebaseComment]
  · rw [ht]
    have h2 : (rebaseComment event pr).isCheckRunFetch = false := rfl
    simp only [List.countP_append, List.countP_cons, g5, r5, count_fetch_pollRounds _ hf, hf,
      h2]
    simp [Effect.isCheckRunFetch]
  · rw [ht]
    have hp := count_pollRounds_other Effect.isListReviews (fetchOf event pr) rfl rfl
    have h1 : (fetchOf event pr).isListReviews = false := rfl
    have h2 : (rebaseComment event pr).isListReviews = false := rfl
    simp only [List.countP_append, List.countP_cons, g2, r2, hp, h1, h2]
    simp [Effect.isListReviews]
  · rw [ht]
    have hp := count_pollRounds_other Effect.isCreateReview (fetchOf event pr) rfl rfl
    have h1 : (fetchOf event pr).isCreateReview = false := rfl
    have h2 : (rebaseComment event pr).isCreateReview = false := rfl
    simp only [List.countP_append, List.countP_cons, g3, r3, hp, h1, h2]
    simp [Effect.isCreateReview]
  · rw [ht]
    have hp := count_pollRounds_other Effect.isMergeComment (fetchOf event pr) rfl rfl
    have h1 : (fetchOf event pr).isMergeComment = false := rfl
    have h2 : (rebaseComment event pr).isMergeComment = false := by
      simp [rebaseComment, Effect.isMergeComment]
    simp only [List.countP_append, List.countP_cons, g4, r4, hp, h1, h2]
    simp [Effect.isMergeComment]

/-- Witness of C8: the check run completes at the 14th fetch, the second attempt of
the second poll; the entry asks for approve and merge. -/
theorem run_checks_complete_after_rebase_witness :
    (run slowRemote sampleEvent [⟨"x", true, true⟩] Cursor.start).value = none ∧
    (run slowRemote sampleEvent [⟨"x", true, true⟩]
      Cursor.start).trace.countP Effect.isRebaseComment = 1 ∧
    (run slowRemote sampleEvent [⟨"x", true, true⟩]
      Cursor.start).trace.countP Effect.isCheckRunFetch = maxAttempts + 2 :=
  have h := run_checks_complete_after_rebase slowRemote sampleEvent samplePullRequest
    samplePullRequest ⟨"x", true, true⟩ [⟨"x", true, true⟩] [] 2
    (by decide) rfl rfl rfl (Or.inr ⟨[⟨true, "dependabot[bot]"⟩], rfl, by simp⟩)
    (fun i hi => ⟨[⟨"in_progress"⟩], by
      have h13 : i < 13 := Nat.lt_trans hi (by decide)
      simp [slowRemote, h13], by decide⟩)
    rfl (by decide) (by decide)
    (fun i hi => ⟨[⟨"in_progress"⟩], by
      have h0 : i = 0 := by omega
      subst h0
      rfl, by decide⟩)
    ⟨[⟨"completed"⟩], rfl, by decide⟩ rfl rfl rfl
  ⟨h.1, h.2.2.1, h.2.2.2.1⟩

/-- C9 (amended): `run` stops at the first entry whose processing ends in an error,
an authorship-verification failure or an exhausted-poll failure in particular: when
the run over the entries `before` returns an error, the run over `before ++ after`
is that same run, with the same error and effects, and executes nothing for the
entries of `after`, matching or not. -/
theorem run_returns_at_failed_entry (remote : Remote) (event : PullRequestEvent)
    (before after : List Config) (s : Cursor) (e : Error)
    (h : (run remote event before s).value = some e) :
    run remote event (before ++ after) s = run remote event before s :=
  run_append_of_error remote event before after s e h

/-- Witness of C9: the first entry ends in the authorship failure, and the second
matching entry changes nothing. -/
theorem run_returns_at_failed_entry_witness :
    run unsignedRemote sampleEvent ([⟨"x", true, true⟩] ++ [⟨"x", false, true⟩]) Cursor.start =
      run unsignedRemote sampleEvent [⟨"x", true, true⟩] Cursor.start :=
  run_returns_at_failed_entry unsignedRemote sampleEvent [⟨"x", true, true⟩]
    [⟨"x", false, true⟩] Cursor.start .commitsNotVerified rfl

/-- Counterexample to C9: two entries match the repository.  When the first ends in
the authorship failure, `run` returns it after one open check and one authorship
check; when the first ends in the exhausted-poll failure, `run` returns it too.  In
both runs the line "running action" is logged once: the gating sequence of the
second entry is never executed. -/
theorem run_skips_later_entry_after_failure :
    ([⟨"x", true, true⟩, ⟨"x", false, true⟩].filter
      fun c : Config => c.repository == sampleEvent.repoName).length = 2 ∧
    (run unsignedRemote sampleEvent [⟨"x", true, true⟩, ⟨"x", false, true⟩]
      Cursor.start).value = some .commitsNotVerified ∧
    (run unsignedRemote sampleEvent [⟨"x", true, true⟩, ⟨"x", false, true⟩]
      Cursor.start).trace =
      [.log "running action", .sleep 15,
       .call (.getPullRequest "octo" "x" 7) none,
       .call (.listCommits "octo" "x" 7) none] ∧
    (run pendingRemote sampleEvent [⟨"x", true, true⟩, ⟨"x", false, true⟩]
      Cursor.start).value = some .checksNotPassing ∧
    (run pendingRemote sampleEvent [⟨"x", true, true⟩, ⟨"x", false, true⟩]
      Cursor.start).trace.count (.log "running action") = 1 := by
  decide

end DependabotAutomerge
